import Mathlib

/-!
# mini-web: the request context and its handler chain

A shallow embedding of `context.go` (the per-request `Context`, its
key-value store, the content binder, the response writers and the
`Next`/`Fail` chain controller), followed by theorems about it.

Modelling conventions.

* Go `[]byte` is `List UInt8`; Go `error` is `Option String` (`none` is `nil`).
* `interface{}` values are the tagged union `GoVal`: the dynamic type is the
  constructor, so a type assertion `val.(T)` succeeds exactly on the
  constructor of `T`.
* The response writer is write-only for this code, so it is represented by the
  chronological record of the calls made on it (`Context.trace`).  The same
  record also carries ghost markers (a handler being invoked, `Fail` being
  called, a handler-local action) so that the relative order of all of these
  can be stated.
* A handler is a Go closure; what the chain controller can observe
  of one run of it is the sequence of calls it makes on the `Context`.
  `HandlerFunc` is that sequence, quantified over in the theorems.
* The cursor `index` is a Go `int`; it is modelled as an unbounded integer
  (it moves by `+1` steps, so reaching the 64-bit limit takes `2^63` calls).
* The reader/writer mutex around `Keys` is not modelled: the embedding is
  sequential.
* Library routines whose code is not part of the repository (JSON/XML
  codecs, the template engine) are parameters.
-/

namespace MiniWeb

/-! ## Values -/

/-- A Go byte slice. -/
abbrev Bytes := List UInt8

/-- A Go `time.Time`, by its three fields; the zero value has them all zero. -/
structure Time where
  wall : Nat
  ext : Int
  loc : Option String
deriving DecidableEq, Repr

/-- A value of type `interface{}`, tagged with its dynamic type.  `float64`
carries the IEEE bit pattern, `duration` the nanosecond count, and `other`
stands for a value of any type not listed. -/
inductive GoVal where
  | nil
  | string (s : String)
  | bool (b : Bool)
  | int (i : Int)
  | int64 (i : Int)
  | uint (n : Nat)
  | uint64 (n : Nat)
  | float64 (bits : Nat)
  | time (t : Time)
  | duration (d : Int)
  | other (typeName : String)
deriving DecidableEq, Repr

/-- The map type `H` of `context.go`: `map[string]interface{}`. -/
abbrev H := List (String × GoVal)

/-- An object handed to a serializer: an `H` map or a plain value. -/
inductive Obj where
  | h (m : H)
  | val (v : GoVal)
deriving DecidableEq, Repr

/-! ## Events, handlers, requests, the context -/

/-- One entry of the chronological record kept in `Context.trace`. -/
inductive Event where
  /-- Ghost: `c.handlers[i](c)` is invoked by the loop of `Next`. -/
  | enter (i : Nat)
  /-- Ghost: `Fail(code, err)` is called. -/
  | failCall (code : Int) (err : String)
  /-- Ghost: a handler-local action (for instance a log line), recorded with the
  status code the context holds at that moment. -/
  | note (tag : String) (status : Int)
  /-- A call of `Writer.Header().Set(key, value)`. -/
  | setHeader (key value : String)
  /-- A call of `Writer.WriteHeader(code)`. -/
  | writeHeader (code : Int)
  /-- A call of `Writer.Write(data)`. -/
  | write (data : Bytes)
deriving DecidableEq, Repr

/-- A call a handler makes on the context that returns to the handler and does
not run other handlers. -/
inductive Call where
  | set (key val : String)
  | status (code : Int)
  | setHeader (key value : String)
  | string (code : Int) (text : Bytes)
  | json (code : Int) (obj : Obj)
  | data (code : Int) (data : Bytes)
  | html (code : Int) (name : String) (data : Obj)
  | fail (code : Int) (err : String)
  | note (tag : String)

/-- One step of a handler body. -/
inductive Act where
  /-- The handler calls `c.Next()`. -/
  | next
  /-- The handler raises a runtime fault with the given value. -/
  | panic (v : String)
  /-- The handler makes another call on the context. -/
  | api (call : Call)

/-- A handler: the sequence of steps of its body and, when it installs a
deferred function that calls `recover()`, the steps of that function given the
recovered value. -/
structure HandlerFunc where
  body : List Act
  onPanic : Option (String → List Act) := none

/-- The part of the engine the context uses: `htmlTemplates.ExecuteTemplate`,
which yields the writes it performed and its error. -/
structure Engine where
  htmlTemplates : String → Obj → List Bytes × Option String

/-- Library routines used by the context: `Encode` of `encoding/json`, which
yields the bytes it writes or fails with a message. -/
structure Lib where
  jsonEncode : Obj → Except String Bytes

/-- An `http.Request` as the context uses it.  `Header` is `Header.Get`
(lookup by canonical key, `""` when absent).  `Body` is the body stream, as the
successive chunks of bytes it has for successive calls of `Read`: one `Read`
delivers bytes of the next chunk only (all of it, or as much as was asked for), and
once no chunk is left `Read` delivers nothing and reports end of stream.
`BodyEOFWithData` tells whether the `Read` that delivers the last bytes of the
stream already reports end of stream along with them, as the body of a request of
declared length does, or only the `Read` after it. -/
structure Request where
  Method : String
  URLPath : String
  RequestURI : String
  Header : String → String
  Body : List Bytes
  BodyEOFWithData : Bool := false

/-- The struct `Context`.  `Keys = none` is the nil map; `engine = none` is
the nil pointer; `trace` is the record of the response writer. -/
structure Context where
  trace : List Event
  Req : Request
  Path : String
  Method : String
  Params : List (String × String)
  StatusCode : Int
  handlers : List HandlerFunc
  index : Int
  engine : Option Engine
  Keys : Option (String → Option GoVal)

/-- The result of running code that may raise a runtime fault. -/
inductive Outcome where
  | done (c : Context)
  | panicked (c : Context) (v : String)

/-- The context an outcome leaves behind. -/
def Outcome.ctx : Outcome → Context
  | .done c => c
  | .panicked c _ => c

/-- The function `newContext`, on a response writer that has received no call. -/
def newContext (req : Request) : Context :=
  { trace := []
    Req := req
    Path := req.URLPath
    Method := req.Method
    Params := []
    StatusCode := 0
    handlers := []
    index := -1
    engine := none
    Keys := some (fun _ => none) }

/-! ## The key-value store -/

/-- The method `Set`. -/
def Context.Set (c : Context) (key : String) (val : String) : Context :=
  let keys : String → Option GoVal :=
    match c.Keys with
    | none => fun _ => none
    | some m => m
  { c with Keys := some (fun k => if k = key then some (GoVal.string val) else keys k) }

/-- The method `Get`: a read of a nil map finds nothing. -/
def Context.Get (c : Context) (key : String) : GoVal × Bool :=
  match c.Keys with
  | none => (GoVal.nil, false)
  | some m =>
    match m key with
    | some v => (v, true)
    | none => (GoVal.nil, false)

/-- The method `GetString`. -/
def Context.GetString (c : Context) (key : String) : String :=
  match c.Get key with
  | (GoVal.string s, true) => s
  | _ => ""

/-- The method `GetBool`. -/
def Context.GetBool (c : Context) (key : String) : Bool :=
  match c.Get key with
  | (GoVal.bool b, true) => b
  | _ => false

/-- The method `GetInt`. -/
def Context.GetInt (c : Context) (key : String) : Int :=
  match c.Get key with
  | (GoVal.int i, true) => i
  | _ => 0

/-- The method `GetInt64`. -/
def Context.GetInt64 (c : Context) (key : String) : Int :=
  match c.Get key with
  | (GoVal.int64 i, true) => i
  | _ => 0

/-- The method `GetUint`. -/
def Context.GetUint (c : Context) (key : String) : Nat :=
  match c.Get key with
  | (GoVal.uint n, true) => n
  | _ => 0

/-- The method `GetUint64`. -/
def Context.GetUint64 (c : Context) (key : String) : Nat :=
  match c.Get key with
  | (GoVal.uint64 n, true) => n
  | _ => 0

/-- The method `GetFloat64`; the result is the bit pattern, `0` being `+0.0`. -/
def Context.GetFloat64 (c : Context) (key : String) : Nat :=
  match c.Get key with
  | (GoVal.float64 bits, true) => bits
  | _ => 0

/-- The method `GetTime`. -/
def Context.GetTime (c : Context) (key : String) : Time :=
  match c.Get key with
  | (GoVal.time t, true) => t
  | _ => { wall := 0, ext := 0, loc := none }

/-- The method `GetDuration`. -/
def Context.GetDuration (c : Context) (key : String) : Int :=
  match c.Get key with
  | (GoVal.duration d, true) => d
  | _ => 0

/-! ## Response writers -/

/-- Append one entry to the record of the response writer. -/
def Context.emit (c : Context) (e : Event) : Context :=
  { c with trace := c.trace ++ [e] }

/-- The UTF-8 encoding of one character. -/
def utf8Char (ch : Char) : Bytes :=
  if ch.toNat < 128 then [UInt8.ofNat ch.toNat]
  else if ch.toNat < 2048 then
    [UInt8.ofNat (192 + ch.toNat / 64), UInt8.ofNat (128 + ch.toNat % 64)]
  else if ch.toNat < 65536 then
    [UInt8.ofNat (224 + ch.toNat / 4096), UInt8.ofNat (128 + ch.toNat / 64 % 64),
      UInt8.ofNat (128 + ch.toNat % 64)]
  else
    [UInt8.ofNat (240 + ch.toNat / 262144), UInt8.ofNat (128 + ch.toNat / 4096 % 64),
      UInt8.ofNat (128 + ch.toNat / 64 % 64), UInt8.ofNat (128 + ch.toNat % 64)]

/-- The bytes of a Go string holding the given text. -/
def utf8 (s : String) : Bytes :=
  (s.toList.map utf8Char).flatten

/-- The method `SetHeader`. -/
def Context.SetHeader (c : Context) (key : String) (value : String) : Context :=
  c.emit (Event.setHeader key value)

/-- The method `Status`. -/
def Context.Status (c : Context) (code : Int) : Context :=
  ({ c with StatusCode := code }).emit (Event.writeHeader code)

/-- The library function `http.Error(w, error, code)`: two headers, the status
line, then the message and a newline. -/
def httpError (c : Context) (error : String) (code : Int) : Context :=
  (((c.emit (Event.setHeader "Content-Type" "text/plain; charset=utf-8")).emit
    (Event.setHeader "X-Content-Type-Options" "nosniff")).emit
    (Event.writeHeader code)).emit (Event.write (utf8 (error ++ "\n")))

/-- The method `String` (named `StringBody` here, away from the type `String`);
`text` is the result of `fmt.Sprintf(format, values...)`. -/
def Context.StringBody (c : Context) (code : Int) (text : Bytes) : Context :=
  (((c.SetHeader "Content-Type" "text/plain").Status code)).emit (Event.write text)

/-- The method `JSON`. -/
def Context.JSON (lib : Lib) (c : Context) (code : Int) (obj : Obj) : Context :=
  let c1 := (c.SetHeader "Content-Type" "application/json").Status code
  match lib.jsonEncode obj with
  | Except.ok bytes => c1.emit (Event.write bytes)
  | Except.error err => httpError c1 err 500

/-- The method `Data`. -/
def Context.Data (c : Context) (code : Int) (data : Bytes) : Context :=
  (c.Status code).emit (Event.write data)

/-- The method `Fail`. -/
def Context.Fail (lib : Lib) (c : Context) (code : Int) (err : String) : Context :=
  Context.JSON lib (({ c with index := (c.handlers.length : Int) }).emit (Event.failCall code err))
    code (Obj.h [("message", GoVal.string err)])

/-- The method `HTML`.  A nil engine makes the field access fault; otherwise the
template engine performs its writes and, when it reports an error, `Fail(500, _)`
follows. -/
def Context.HTML (lib : Lib) (c : Context) (code : Int) (name : String) (data : Obj) : Outcome :=
  let c1 := (c.SetHeader "Content-Type" "text/html").Status code
  match c1.engine with
  | none => Outcome.panicked c1 "invalid memory address or nil pointer dereference"
  | some e =>
    let c2 := { c1 with trace := c1.trace ++ (e.htmlTemplates name data).1.map Event.write }
    match (e.htmlTemplates name data).2 with
    | none => Outcome.done c2
    | some msg => Outcome.done (Context.Fail lib c2 500 msg)

/-! ## The chain controller -/

/-- Run one call of a handler on the context. -/
def Call.run (lib : Lib) (call : Call) (c : Context) : Outcome :=
  match call with
  | Call.set key val => Outcome.done (c.Set key val)
  | Call.status code => Outcome.done (c.Status code)
  | Call.setHeader key value => Outcome.done (c.SetHeader key value)
  | Call.string code text => Outcome.done (c.StringBody code text)
  | Call.json code obj => Outcome.done (Context.JSON lib c code obj)
  | Call.data code bytes => Outcome.done (c.Data code bytes)
  | Call.html code name obj => Context.HTML lib c code name obj
  | Call.fail code err => Outcome.done (Context.Fail lib c code err)
  | Call.note tag => Outcome.done (c.emit (Event.note tag c.StatusCode))

/-- Run the steps of a handler body in order; `next` is what `c.Next()` does.
A fault ends the body at once; `none` means `next` did not return. -/
def runActs (lib : Lib) (next : Context → Option Outcome) : List Act → Context → Option Outcome
  | [], c => some (Outcome.done c)
  | Act.next :: rest, c =>
    match next c with
    | some (Outcome.done c1) => runActs lib next rest c1
    | r => r
  | Act.panic v :: _, c => some (Outcome.panicked c v)
  | Act.api call :: rest, c =>
    match call.run lib c with
    | Outcome.done c1 => runActs lib next rest c1
    | r => some r

/-- Invoke a handler: run its body and, if the body faults and the handler has a
recovering deferred function, run that function on the context as the fault left
it; the handler then returns normally unless the deferred function faults. -/
def HandlerFunc.invoke (lib : Lib) (next : Context → Option Outcome) (h : HandlerFunc)
    (c : Context) : Option Outcome :=
  match runActs lib next h.body c with
  | some (Outcome.panicked c1 v) =>
    match h.onPanic with
    | none => some (Outcome.panicked c1 v)
    | some f => runActs lib next (f v) c1
  | r => r

/-- The `for` loop of `Next`: `for ; c.index < s; c.index++ { c.handlers[c.index](c) }`.
Every entry into the loop test spends one unit of `fuel`, and `none` means the
fuel ran out.  Indexing with a negative cursor is a runtime fault. -/
def loop (lib : Lib) : Nat → Context → Option Outcome
  | 0, _ => none
  | fuel + 1, c =>
    if c.index < (c.handlers.length : Int) then
      if 0 ≤ c.index then
        match c.handlers.get? c.index.toNat with
        | none => some (Outcome.panicked c "index out of range")
        | some h =>
          match h.invoke lib (fun c1 => loop lib fuel { c1 with index := c1.index + 1 })
              (c.emit (Event.enter c.index.toNat)) with
          | some (Outcome.done c2) => loop lib fuel { c2 with index := c2.index + 1 }
          | r => r
      else some (Outcome.panicked c "index out of range")
    else some (Outcome.done c)

/-- The method `Next`: `c.index++`, then the loop. -/
def Next (lib : Lib) (fuel : Nat) (c : Context) : Option Outcome :=
  loop lib fuel { c with index := c.index + 1 }

/-- The handler indices entered, in order, according to a record. -/
def enters : List Event → List Nat
  | [] => []
  | Event.enter i :: es => i :: enters es
  | _ :: es => enters es

/-- Whether an entry is the marker of a call of `Fail`. -/
def Event.isFail : Event → Bool
  | Event.failCall _ _ => true
  | _ => false

/-- The part of a record from the first call of `Fail` on (empty if there is none). -/
def afterFail : List Event → List Event
  | [] => []
  | e :: es => if e.isFail then e :: es else afterFail es

/-- A predicate on outcomes from one on contexts that returned and one on contexts
left by a fault. -/
def Outcome.sat (P Pp : Context → Prop) : Outcome → Prop
  | Outcome.done c => P c
  | Outcome.panicked c _ => Pp c

/-- The number of handlers at or after the cursor. -/
def Context.remaining (c : Context) : Nat :=
  ((c.handlers.length : Int) - c.index).toNat

/-- A call that neither calls `Fail` nor faults, given the engine of the context:
every call but `Fail`, and `HTML` only when the engine is set and the template runs
without error. -/
def Call.quiet (engine : Option Engine) : Call → Bool
  | Call.fail _ _ => false
  | Call.html _ name obj =>
    match engine with
    | none => false
    | some e => (e.htmlTemplates name obj).2.isNone
  | _ => true

/-- A step that neither calls `Fail` nor faults: `Next`, or a quiet call. -/
def Act.quiet (engine : Option Engine) : Act → Bool
  | Act.next => true
  | Act.panic _ => false
  | Act.api call => call.quiet engine

/-- A fresh context with a handler chain and an engine attached, as the engine
sets it up before its one call of `Next`. -/
def attach (req : Request) (handlers : List HandlerFunc) (engine : Option Engine) : Context :=
  { newContext req with handlers := handlers, engine := engine }

/-- A stand-in JSON encoder for the examples: it renders the error object of `Fail`
(without escaping) and rejects every other object. -/
def exampleLib : Lib :=
  { jsonEncode := fun obj =>
      match obj with
      | Obj.h [("message", GoVal.string err)] =>
        Except.ok (utf8 ("\x7b\"message\":\"" ++ err ++ "\"\x7d\n"))
      | _ => Except.error "json: unsupported type" }

/-! ## The content binder -/

/-- The method `GetHeader`. -/
def Context.GetHeader (c : Context) (key : String) : String :=
  c.Req.Header key

/-- Accumulate decimal digits; `none` at the first character that is not one. -/
def parseDigits : List Char → Nat → Option Nat
  | [], acc => some acc
  | ch :: rest, acc =>
    if 48 ≤ ch.toNat ∧ ch.toNat ≤ 57 then parseDigits rest (acc * 10 + (ch.toNat - 48)) else none

/-- The library function `strconv.Atoi` on a 64-bit platform: an optional sign,
then at least one decimal digit and nothing else, the value within the range of
`int`.  The error is given by its kind. -/
def Atoi (s : String) : Except String Int :=
  let signed : Bool × List Char :=
    match s.toList with
    | '-' :: r => (true, r)
    | '+' :: r => (false, r)
    | r => (false, r)
  match signed.2 with
  | [] => Except.error "invalid syntax"
  | d :: ds =>
    match parseDigits (d :: ds) 0 with
    | none => Except.error "invalid syntax"
    | some n =>
      if signed.1 then
        if 2 ^ 63 < n then Except.error "value out of range" else Except.ok (-(n : Int))
      else
        if 2 ^ 63 ≤ n then Except.error "value out of range" else Except.ok (n : Int)

/-- The size of the buffer of a `bufio.Reader` made by `bufio.NewReader`. -/
def defaultBufSize : Nat := 4096

/-- One `Read(p)` with `len(p) = m` on a fresh `bufio.NewReader(body)`: the bytes
placed in `p`, the error, and the body stream afterwards.  An empty `p` reads
nothing.  Otherwise there is exactly one `Read` on the body, into `p` itself when
`m` is at least the buffer size and into the 4096-byte buffer when not; it
delivers what the next chunk holds, up to the size asked, or end of stream when
no chunk is left.  When the body reports end of stream along with its last bytes
(`eofWithData`) and this `Read` takes them, the reader hands that error on if it
read into `p` itself or got no byte, and keeps it to itself if it read bytes into
its buffer.  Bytes taken into the buffer beyond `m` are gone with the reader. -/
def bufioRead (eofWithData : Bool) (body : List Bytes) (m : Nat) :
    Bytes × Option String × List Bytes :=
  if m = 0 then ([], none, body)
  else
    match body with
    | [] => ([], some "EOF", [])
    | chunk :: rest =>
      ((chunk.take (max m defaultBufSize)).take m,
        if eofWithData = true ∧ rest = [] ∧ chunk.length ≤ max m defaultBufSize ∧
            (defaultBufSize ≤ m ∨ chunk = []) then some "EOF"
        else none,
        if max m defaultBufSize < chunk.length then chunk.drop (max m defaultBufSize) :: rest
        else rest)

/-- The decoders `json.Unmarshal` and `xml.Unmarshal` for a target type: each
yields the target as it leaves it and its error. -/
structure Codec (τ : Type) where
  jsonUnmarshal : Bytes → τ → τ × Option String
  xmlUnmarshal : Bytes → τ → τ × Option String

/-- What a binder returns: the context (its body stream may have been read),
the target, and the error. -/
structure BindReturn (τ : Type) where
  ctx : Context
  obj : τ
  err : Option String

/-- A binder either returns or raises a runtime fault. -/
inductive BindOutcome (τ : Type) where
  | returned (r : BindReturn τ)
  | panicked (v : String)

/-- The method `ShouldBindJson`.  `make([]byte, bytesNum)` faults on a negative
length (a length beyond what memory allows is not modelled); the slice starts
zeroed and the read overwrites its front. -/
def ShouldBindJson {τ : Type} (codec : Codec τ) (c : Context) (obj : τ) : BindOutcome τ :=
  if c.Req.Method = "GET" then
    BindOutcome.returned { ctx := c, obj := obj, err := some "GEThave no the body" }
  else
    match Atoi (c.GetHeader "Content-length") with
    | Except.error e => BindOutcome.returned { ctx := c, obj := obj, err := some e }
    | Except.ok bytesNum =>
      if bytesNum < 0 then BindOutcome.panicked "makeslice: len out of range"
      else
        let r := bufioRead c.Req.BodyEOFWithData c.Req.Body bytesNum.toNat
        let c1 : Context := { c with Req := { c.Req with Body := r.2.2 } }
        let bytes : Bytes := r.1 ++ List.replicate (bytesNum.toNat - r.1.length) 0
        match r.2.1 with
        | some e => BindOutcome.returned { ctx := c1, obj := obj, err := some e }
        | none =>
          BindOutcome.returned
            { ctx := c1, obj := (codec.jsonUnmarshal bytes obj).1,
              err := (codec.jsonUnmarshal bytes obj).2 }

/-- The method `ShouldBindXml`: the slice is decoded as allocated. -/
def ShouldBindXml {τ : Type} (codec : Codec τ) (c : Context) (obj : τ) : BindOutcome τ :=
  if c.Req.Method = "GET" then
    BindOutcome.returned { ctx := c, obj := obj, err := some "GEThave no the body" }
  else
    match Atoi (c.GetHeader "Content-length") with
    | Except.error e => BindOutcome.returned { ctx := c, obj := obj, err := some e }
    | Except.ok bytesNum =>
      if bytesNum < 0 then BindOutcome.panicked "makeslice: len out of range"
      else
        let bytes : Bytes := List.replicate bytesNum.toNat 0
        BindOutcome.returned
          { ctx := c, obj := (codec.xmlUnmarshal bytes obj).1,
            err := (codec.xmlUnmarshal bytes obj).2 }

/-- The method `ShouldBind`. -/
def ShouldBind {τ : Type} (codec : Codec τ) (c : Context) (obj : τ) : BindOutcome τ :=
  if c.GetHeader "Content-Type" = "application/json" then ShouldBindJson codec c obj
  else if c.GetHeader "Content-Type" = "application/xml" then ShouldBindXml codec c obj
  else
    BindOutcome.returned
      { ctx := c, obj := obj, err := some "not support the request Content-Type" }

/-! ## Concrete inputs used in the examples -/

/-- A request with the given method, `Content-Type`, `Content-length` and body
chunks, and no other header. -/
def mkRequest (method contentType contentLength : String) (body : List Bytes) : Request :=
  { Method := method
    URLPath := "/hello"
    RequestURI := "/hello"
    Header := fun key =>
      if key = "Content-Type" then contentType
      else if key = "Content-length" then contentLength
      else ""
    Body := body }

/-- The struct `Stu` of `example/demo.go`. -/
structure Stu where
  Name : String
  Age : Int
deriving DecidableEq, Repr

/-- A stand-in decoder for `Stu`, enough for the examples: it accepts the one
document `{"name":"Al"}` and rejects every other input, leaving the target alone. -/
def exampleCodec : Codec Stu :=
  { jsonUnmarshal := fun bytes obj =>
      if bytes = utf8 "\x7b\"name\":\"Al\"\x7d" then ({ obj with Name := "Al" }, none)
      else (obj, some "invalid character")
    xmlUnmarshal := fun bytes obj =>
      if bytes = utf8 "<Stu><name>Al</name></Stu>" then ({ obj with Name := "Al" }, none)
      else (obj, some "EOF") }

/-- The middleware `Logger`: it calls `Next` and then writes one log line (which
shows the status code). -/
def Logger : HandlerFunc :=
  { body := [Act.next, Act.api (Call.note "log")] }

/-- The handler of `example/demo.go` on its success path: it answers with
`c.JSON(200, stu)`. -/
def demoHandler : HandlerFunc :=
  { body := [Act.api (Call.json 200 (Obj.val (GoVal.other "Stu")))] }

/-- A handler that calls `Next` and afterwards `Fail(500, "boom")`. -/
def failAfterNext : HandlerFunc :=
  { body := [Act.next, Act.api (Call.fail 500 "boom")] }

/-- A handler that only leaves a note. -/
def noteHandler : HandlerFunc :=
  { body := [Act.api (Call.note "ran")] }

/-- A handler that calls `Next` twice and then `Fail(500, "late")`. -/
def nextTwiceThenFail : HandlerFunc :=
  { body := [Act.next, Act.next, Act.api (Call.fail 500 "late")] }

/-- The request of the examples about the chain. -/
def plainRequest : Request :=
  mkRequest "POST" "application/json" "0" []

/-- A store holding one value of each kind, for the examples. -/
def mixedStore : Context :=
  { newContext (mkRequest "POST" "" "" []) with
    Keys := some (fun key =>
      if key = "name" then some (GoVal.string "Al")
      else if key = "age" then some (GoVal.int 7)
      else if key = "nothing" then some GoVal.nil
      else none) }

/-! ## The standard middlewares and further notions -/

/-- The status the transport puts on the wire, read off a record of the response
writer: that of the first `WriteHeader`, or 200 when a `Write` comes first; later
`WriteHeader` calls change nothing. -/
def responseStatus : List Event → Option Int
  | [] => none
  | Event.writeHeader code :: _ => some code
  | Event.write _ :: _ => some 200
  | _ :: es => responseStatus es

/-- Whether an entry is a `Header().Set` of `Content-Type`. -/
def Event.isContentType : Event → Bool
  | Event.setHeader key _ => key == "Content-Type"
  | _ => false

/-- An engine whose template `"index"` renders one line and whose other
templates are missing. -/
def exampleEngine : Engine :=
  { htmlTemplates := fun name _ =>
      if name = "index" then ([utf8 "<h1>hi</h1>"], none)
      else ([], some "html/template: undefined") }

/-- The function `trace`: the message followed by the traceback header; the stack
frames, which are runtime data, are left out. -/
def trace (message : String) : String :=
  message ++ "\nTraceback:"

/-- The middleware `Recovery`: it calls `Next` under a deferred function that, when
a fault arrives, logs the trace of its message and calls
`Fail(500, "Internal Server Error")`.  The value of a fault is a string here, so
the test `err != nil` of the deferred function always passes (`panic(nil)` is not
modelled). -/
def Recovery : HandlerFunc :=
  { body := [Act.next]
    onPanic := some (fun err =>
      [Act.api (Call.note (trace err ++ "\n\n")),
        Act.api (Call.fail 500 "Internal Server Error")]) }

/-- The calls `Cors` makes when the request has an `Origin` header: the direct
`Header().Set`, six `SetHeader`, and one `Set`. -/
def corsCalls : List Act :=
  [Act.api (Call.setHeader "Access-Control-Allow-Origin" "*"),
    Act.api (Call.setHeader "Access-Control-Allow-Origin" "*"),
    Act.api (Call.setHeader "Access-Control-Allow-Methods"
      "POST, GET, OPTIONS, PUT, DELETE,UPDATE"),
    Act.api (Call.setHeader "Access-Control-Allow-Headers"
      "Authorization, Content-Length, X-CSRF-Token, Token,session,X_Requested_With,Accept, Origin, Host, Connection, Accept-Encoding, Accept-Language,DNT, X-CustomHeader, Keep-Alive, User-Agent, X-Requested-With, If-Modified-Since, Cache-Control, Content-Type, Pragma"),
    Act.api (Call.setHeader "Access-Control-Expose-Headers"
      "Content-Length, Access-Control-Allow-Origin, Access-Control-Allow-Headers,Cache-Control,Content-Language,Content-Type,Expires,Last-Modified,Pragma,FooBar"),
    Act.api (Call.setHeader "Access-Control-Max-Age" "172800"),
    Act.api (Call.setHeader "Access-Control-Allow-Credentials" "false"),
    Act.api (Call.set "content-type" "application/json")]

/-- The middleware `Cors`, on a context whose request is `req` (the request of a
context never changes but for its body stream, which `Cors` does not read).  The
string `headerStr` it builds is never used and is left out. -/
def Cors (req : Request) : HandlerFunc :=
  { body :=
      (if req.Header "Origin" ≠ "" then corsCalls else []) ++
        (if req.Method = "OPTIONS" then [Act.api (Call.fail 204 "No Content")]
         else [Act.next]) }

/-- A `ratelimit.Bucket` between two refills: its capacity and the tokens it holds. -/
structure Bucket where
  capacity : Int
  availableTokens : Int
deriving DecidableEq, Repr

/-- The library function `ratelimit.NewBucket(fillInterval, capacity)`: the bucket
starts full. -/
def NewBucket (capacity : Int) : Bucket :=
  { capacity := capacity, availableTokens := capacity }

/-- The library method `TakeAvailable(count)` when no refill is due: the number of
tokens taken, and the bucket afterwards. -/
def Bucket.TakeAvailable (b : Bucket) (count : Int) : Int × Bucket :=
  if count ≤ 0 then (0, b)
  else if b.availableTokens ≤ 0 then (0, b)
  else if b.availableTokens < count then
    (b.availableTokens, { b with availableTokens := 0 })
  else (count, { b with availableTokens := b.availableTokens - count })

/-- The handler `RateLimitMiddleware` returns, on one request, with the bucket as it
finds it: what the handler does, and the bucket as it leaves it. -/
def RateLimitMiddleware (bucket : Bucket) : HandlerFunc × Bucket :=
  (if (bucket.TakeAvailable 1).1 < 1 then { body := [Act.api (Call.fail 200 "rate limit...")] }
    else { body := [Act.next] },
   (bucket.TakeAvailable 1).2)

/-- The bucket after the handler has served `n` requests. -/
def bucketAfter (bucket : Bucket) : Nat → Bucket
  | 0 => bucket
  | n + 1 => bucketAfter (RateLimitMiddleware bucket).2 n

/-- A handler that raises a fault at once. -/
def panicHandler : HandlerFunc :=
  { body := [Act.panic "boom"] }

/-- A handler that calls `Next` and raises a fault afterwards. -/
def panicAfterNext : HandlerFunc :=
  { body := [Act.next, Act.panic "boom"] }

/-- A request with method OPTIONS and an `Origin` header. -/
def preflightRequest : Request :=
  { Method := "OPTIONS"
    URLPath := "/hello"
    RequestURI := "/hello"
    Header := fun key => if key = "Origin" then "http://a.example" else ""
    Body := [] }

/-- A GET request with an `Origin` header. -/
def crossOriginRequest : Request :=
  { Method := "GET"
    URLPath := "/hello"
    RequestURI := "/hello"
    Header := fun key => if key = "Origin" then "http://a.example" else ""
    Body := [] }

/-- The context after the calls of `corsCalls`. -/
def afterCorsCalls (c : Context) : Context :=
  (((((((c.SetHeader "Access-Control-Allow-Origin" "*").SetHeader
    "Access-Control-Allow-Origin" "*").SetHeader "Access-Control-Allow-Methods"
    "POST, GET, OPTIONS, PUT, DELETE,UPDATE").SetHeader "Access-Control-Allow-Headers"
    "Authorization, Content-Length, X-CSRF-Token, Token,session,X_Requested_With,Accept, Origin, Host, Connection, Accept-Encoding, Accept-Language,DNT, X-CustomHeader, Keep-Alive, User-Agent, X-Requested-With, If-Modified-Since, Cache-Control, Content-Type, Pragma").SetHeader
    "Access-Control-Expose-Headers"
    "Content-Length, Access-Control-Allow-Origin, Access-Control-Allow-Headers,Cache-Control,Content-Language,Content-Type,Expires,Last-Modified,Pragma,FooBar").SetHeader
    "Access-Control-Max-Age" "172800").SetHeader "Access-Control-Allow-Credentials" "false").Set
    "content-type" "application/json"

/-- A call that raises no fault, given the engine of the context: every call but
`HTML` on a nil engine. -/
def Call.faultFree (engine : Option Engine) : Call → Bool
  | Call.html _ _ _ => engine.isSome
  | _ => true

/-- A step that raises no fault: `Next`, or a call that raises none (`Fail`
included). -/
def Act.faultFree (engine : Option Engine) : Act → Bool
  | Act.next => true
  | Act.panic _ => false
  | Act.api call => call.faultFree engine

/-- The context after a sequence of calls of `Set`, first pair first. -/
def setAll (c : Context) (kvs : List (String × String)) : Context :=
  kvs.foldl (fun c kv => c.Set kv.1 kv.2) c

/-- The last value a sequence of `Set` calls gave to a key, if it gave any. -/
def lastSet : List (String × String) → String → Option String
  | [], _ => none
  | (k', v) :: rest, k =>
    match lastSet rest k with
    | some v' => some v'
    | none => if k' = k then some v else none

/-- A middleware that makes the calls `pre`, calls `Next` once, then makes the calls
`post`. -/
def wrap (pre post : List Call) : HandlerFunc :=
  { body := pre.map Act.api ++ Act.next :: post.map Act.api }

/-- A final handler that makes the calls `h` and calls neither `Next` nor `Fail`. -/
def leaf (h : List Call) : HandlerFunc :=
  { body := h.map Act.api }

/-- Make a sequence of calls on a context, one after the other. -/
def applyCalls (lib : Lib) (calls : List Call) (c : Context) : Context :=
  calls.foldl (fun c call => (call.run lib c).ctx) c

/-- The order of effects of nested function calls, in the spec's words: each
middleware runs its `pre`, then everything downstream, then its `post`; that is
`pre_0, pre_1, ..., h, ..., post_1, post_0`. -/
def nestedOrder : List (List Call × List Call) → List Call → List Call
  | [], h => h
  | (pre, post) :: rest, h => pre ++ nestedOrder rest h ++ post

/-- A record without its handler-invocation markers: the effects proper. -/
def effects : List Event → List Event
  | [] => []
  | Event.enter _ :: es => effects es
  | e :: es => e :: effects es

/-- Two contexts that agree on everything a call can read or write but the cursor
and the invocation markers. -/
def sameEffects (c d : Context) : Prop :=
  effects c.trace = effects d.trace ∧ c.StatusCode = d.StatusCode ∧ c.Keys = d.Keys ∧
    c.engine = d.engine

end MiniWeb

/-! # Theorems -/

namespace MiniWeb

/-! ## The key-value store (C5, C6) -/

/-- C5: for every context, key `k` and value `v`, `Set(k, v)` followed by `Get(k)`
returns `(v, true)`; the second part spells out the case of a context whose store
is the nil map before the `Set`. -/
theorem Set_then_Get (c : Context) (k v : String) :
    (c.Set k v).Get k = (GoVal.string v, true) ∧
    (({ c with Keys := none } : Context).Set k v).Get k = (GoVal.string v, true) := by
  constructor <;> simp [Context.Set, Context.Get]

/-- C6: each typed accessor returns the stored value when `Get` finds a value of
exactly its type, and the zero value of its type in every other case (key absent,
nil, or a value of another type); being total functions they never fail.  The
last part is the instance "`GetString` on a key holding an integer returns `\"\"`". -/
theorem typed_accessors (c : Context) (k : String) :
    ((∀ s, c.Get k = (GoVal.string s, true) → c.GetString k = s) ∧
      ((∀ s, c.Get k ≠ (GoVal.string s, true)) → c.GetString k = "")) ∧
    ((∀ b, c.Get k = (GoVal.bool b, true) → c.GetBool k = b) ∧
      ((∀ b, c.Get k ≠ (GoVal.bool b, true)) → c.GetBool k = false)) ∧
    ((∀ i, c.Get k = (GoVal.int i, true) → c.GetInt k = i) ∧
      ((∀ i, c.Get k ≠ (GoVal.int i, true)) → c.GetInt k = 0)) ∧
    ((∀ i, c.Get k = (GoVal.int64 i, true) → c.GetInt64 k = i) ∧
      ((∀ i, c.Get k ≠ (GoVal.int64 i, true)) → c.GetInt64 k = 0)) ∧
    ((∀ n, c.Get k = (GoVal.uint n, true) → c.GetUint k = n) ∧
      ((∀ n, c.Get k ≠ (GoVal.uint n, true)) → c.GetUint k = 0)) ∧
    ((∀ n, c.Get k = (GoVal.uint64 n, true) → c.GetUint64 k = n) ∧
      ((∀ n, c.Get k ≠ (GoVal.uint64 n, true)) → c.GetUint64 k = 0)) ∧
    ((∀ f, c.Get k = (GoVal.float64 f, true) → c.GetFloat64 k = f) ∧
      ((∀ f, c.Get k ≠ (GoVal.float64 f, true)) → c.GetFloat64 k = 0)) ∧
    ((∀ t, c.Get k = (GoVal.time t, true) → c.GetTime k = t) ∧
      ((∀ t, c.Get k ≠ (GoVal.time t, true)) →
        c.GetTime k = { wall := 0, ext := 0, loc := none })) ∧
    ((∀ d, c.Get k = (GoVal.duration d, true) → c.GetDuration k = d) ∧
      ((∀ d, c.Get k ≠ (GoVal.duration d, true)) → c.GetDuration k = 0)) ∧
    (∀ i, c.Get k = (GoVal.int i, true) → c.GetString k = "") := by
  refine ⟨⟨?_, ?_⟩, ⟨?_, ?_⟩, ⟨?_, ?_⟩, ⟨?_, ?_⟩, ⟨?_, ?_⟩, ⟨?_, ?_⟩, ⟨?_, ?_⟩, ⟨?_, ?_⟩,
    ⟨?_, ?_⟩, ?_⟩
  · intro s h; simp [Context.GetString, h]
  · intro h; unfold Context.GetString; split
    · next s hs => exact absurd hs (h s)
    · rfl
  · intro s h; simp [Context.GetBool, h]
  · intro h; unfold Context.GetBool; split
    · next s hs => exact absurd hs (h s)
    · rfl
  · intro s h; simp [Context.GetInt, h]
  · intro h; unfold Context.GetInt; split
    · next s hs => exact absurd hs (h s)
    · rfl
  · intro s h; simp [Context.GetInt64, h]
  · intro h; unfold Context.GetInt64; split
    · next s hs => exact absurd hs (h s)
    · rfl
  · intro s h; simp [Context.GetUint, h]
  · intro h; unfold Context.GetUint; split
    · next s hs => exact absurd hs (h s)
    · rfl
  · intro s h; simp [Context.GetUint64, h]
  · intro h; unfold Context.GetUint64; split
    · next s hs => exact absurd hs (h s)
    · rfl
  · intro s h; simp [Context.GetFloat64, h]
  · intro h; unfold Context.GetFloat64; split
    · next s hs => exact absurd hs (h s)
    · rfl
  · intro s h; simp [Context.GetTime, h]
  · intro h; unfold Context.GetTime; split
    · next s hs => exact absurd hs (h s)
    · rfl
  · intro s h; simp [Context.GetDuration, h]
  · intro h; unfold Context.GetDuration; split
    · next s hs => exact absurd hs (h s)
    · rfl
  · intro i h; simp [Context.GetString, h]

/-- C6, at a concrete store: `GetString` returns the string under `"name"`, and
`""` under `"age"` (an integer) and under an absent key. -/
theorem typed_accessors_witness :
    mixedStore.GetString "name" = "Al" ∧ mixedStore.GetString "absent" = "" ∧
    mixedStore.GetString "age" = "" :=
  ⟨(typed_accessors mixedStore "name").1.1 "Al" (by decide),
   (typed_accessors mixedStore "absent").1.2 (fun s h =>
     GoVal.noConfusion (congrArg Prod.fst
       ((by decide : mixedStore.Get "absent" = (GoVal.nil, false)).symm.trans h))),
   (typed_accessors mixedStore "age").2.2.2.2.2.2.2.2.2 7 (by decide)⟩

/-! ## The content binder (C7 to C10) -/

/-- C7: `ShouldBind` dispatches on the `Content-Type` header: on `application/json`
it is `ShouldBindJson`, on `application/xml` it is `ShouldBindXml`, and on any other
value (the empty value of a missing header included) it returns the
unsupported-content-type error with the context, body stream included, and the
target as they were. -/
theorem ShouldBind_dispatch {τ : Type} (codec : Codec τ) (c : Context) (obj : τ) :
    (c.GetHeader "Content-Type" = "application/json" →
      ShouldBind codec c obj = ShouldBindJson codec c obj) ∧
    (c.GetHeader "Content-Type" = "application/xml" →
      ShouldBind codec c obj = ShouldBindXml codec c obj) ∧
    (c.GetHeader "Content-Type" ≠ "application/json" →
      c.GetHeader "Content-Type" ≠ "application/xml" →
      ShouldBind codec c obj =
        BindOutcome.returned
          { ctx := c, obj := obj, err := some "not support the request Content-Type" }) := by
  refine ⟨?_, ?_, ?_⟩
  · intro h; simp [ShouldBind, h]
  · intro h; simp [ShouldBind, h]
  · intro h1 h2; simp [ShouldBind, h1, h2]

/-- C7, at concrete requests: a JSON request goes to `ShouldBindJson`, an XML
request to `ShouldBindXml`, and a request with `text/plain` is refused. -/
theorem ShouldBind_dispatch_witness :
    ShouldBind exampleCodec
        (newContext (mkRequest "POST" "application/json" "13" [utf8 "\x7b\"name\":\"Al\"\x7d"]))
        { Name := "", Age := 0 } =
      ShouldBindJson exampleCodec
        (newContext (mkRequest "POST" "application/json" "13" [utf8 "\x7b\"name\":\"Al\"\x7d"]))
        { Name := "", Age := 0 } ∧
    ShouldBind exampleCodec (newContext (mkRequest "POST" "application/xml" "0" []))
        { Name := "", Age := 0 } =
      ShouldBindXml exampleCodec (newContext (mkRequest "POST" "application/xml" "0" []))
        { Name := "", Age := 0 } ∧
    ShouldBind exampleCodec (newContext (mkRequest "POST" "text/plain" "0" []))
        { Name := "", Age := 0 } =
      BindOutcome.returned
        { ctx := newContext (mkRequest "POST" "text/plain" "0" [])
          obj := { Name := "", Age := 0 }
          err := some "not support the request Content-Type" } :=
  ⟨(ShouldBind_dispatch exampleCodec _ _).1 (by decide),
   (ShouldBind_dispatch exampleCodec _ _).2.1 (by decide),
   (ShouldBind_dispatch exampleCodec _ _).2.2 (by decide) (by decide)⟩

/-- C8: on a request whose method is GET, `ShouldBindJson` and `ShouldBindXml` both
return the error `GEThave no the body`, whatever the `Content-length` header and
the body are, and hand back the context (with its body stream) and the target
unchanged. -/
theorem bind_GET_rejected {τ : Type} (codec : Codec τ) (c : Context) (obj : τ)
    (hget : c.Req.Method = "GET") :
    ShouldBindJson codec c obj =
      BindOutcome.returned { ctx := c, obj := obj, err := some "GEThave no the body" } ∧
    ShouldBindXml codec c obj =
      BindOutcome.returned { ctx := c, obj := obj, err := some "GEThave no the body" } := by
  constructor
  · simp [ShouldBindJson, hget]
  · simp [ShouldBindXml, hget]

/-- C8, at the request of the spec's example sent with GET. -/
theorem bind_GET_rejected_witness :
    (newContext (mkRequest "GET" "application/json" "13" [utf8 "\x7b\"name\":\"Al\"\x7d"])).Req.Method
      = "GET" ∧
    ShouldBindJson exampleCodec
        (newContext (mkRequest "GET" "application/json" "13" [utf8 "\x7b\"name\":\"Al\"\x7d"]))
        { Name := "", Age := 0 } =
      BindOutcome.returned
        { ctx := newContext (mkRequest "GET" "application/json" "13" [utf8 "\x7b\"name\":\"Al\"\x7d"])
          obj := { Name := "", Age := 0 }
          err := some "GEThave no the body" } :=
  ⟨rfl, (bind_GET_rejected exampleCodec _ _ rfl).1⟩

/-- A missing or non-numeric `Content-length` on a non-GET request: both binders
return the error of `Atoi` and leave the context and the target alone. -/
theorem bind_malformed_length {τ : Type} (codec : Codec τ) (c : Context) (obj : τ) (e : String)
    (hm : c.Req.Method ≠ "GET") (hlen : Atoi (c.GetHeader "Content-length") = Except.error e) :
    ShouldBindJson codec c obj = BindOutcome.returned { ctx := c, obj := obj, err := some e } ∧
    ShouldBindXml codec c obj = BindOutcome.returned { ctx := c, obj := obj, err := some e } := by
  constructor
  · simp [ShouldBindJson, hm, hlen]
  · simp [ShouldBindXml, hm, hlen]

/-- C9, at the failing input: on a POST request whose `Content-length` is `-1`,
`Atoi` succeeds and `make([]byte, -1)` raises a runtime fault in both binders,
where the claim has them return a malformed-length error. -/
theorem bind_negative_length_faults {τ : Type} (codec : Codec τ) (obj : τ) :
    ShouldBindJson codec (newContext (mkRequest "POST" "application/json" "-1" [])) obj =
      BindOutcome.panicked "makeslice: len out of range" ∧
    ShouldBindXml codec (newContext (mkRequest "POST" "application/xml" "-1" [])) obj =
      BindOutcome.panicked "makeslice: len out of range" := by
  have hlen : Atoi "-1" = Except.ok (-1) := rfl
  constructor
  · simp [ShouldBindJson, newContext, mkRequest, Context.GetHeader, hlen]
  · simp [ShouldBindXml, newContext, mkRequest, Context.GetHeader, hlen]

/-- The success path of `ShouldBindJson`: on a non-GET request with a valid
`Content-length` `n`, when the binder's one read gets `n` bytes from the body
(`Body.headD []` is what the body has for that read) and reports no error, the
result is what `json.Unmarshal` makes of the first `n` bytes of the body
(`Body.flatten` is the whole content) and the target. -/
theorem ShouldBindJson_decodes {τ : Type} (codec : Codec τ) (c : Context) (obj : τ) (n : Nat)
    (hm : c.Req.Method ≠ "GET")
    (hlen : Atoi (c.GetHeader "Content-length") = Except.ok (n : Int))
    (hbody : n ≤ (c.Req.Body.headD []).length)
    (hnoerr : (bufioRead c.Req.BodyEOFWithData c.Req.Body n).2.1 = none) :
    ShouldBindJson codec c obj =
      BindOutcome.returned
        { ctx := { c with Req := { c.Req with
            Body := (bufioRead c.Req.BodyEOFWithData c.Req.Body n).2.2 } }
          obj := (codec.jsonUnmarshal (c.Req.Body.flatten.take n) obj).1
          err := (codec.jsonUnmarshal (c.Req.Body.flatten.take n) obj).2 } := by
  have hread : (bufioRead c.Req.BodyEOFWithData c.Req.Body n).1 =
      c.Req.Body.flatten.take n := by
    unfold bufioRead
    by_cases h0 : n = 0
    · simp [h0]
    · cases hb : c.Req.Body with
      | nil => simp [hb] at hbody; exact absurd hbody h0
      | cons chunk rest =>
        simp only [hb, List.headD_cons] at hbody
        simp [h0, List.take_take, List.take_append_of_le_length hbody]
  have hfull : (c.Req.Body.flatten.take n).length = n := by
    cases hb : c.Req.Body with
    | nil => simp [hb] at hbody; simp [hbody]
    | cons chunk rest =>
      simp only [hb, List.headD_cons] at hbody
      simp [List.length_take]; omega
  simp [ShouldBindJson, hm, hlen, hread, hnoerr, hfull]

/-- The example of the spec: POST, `Content-length` 13 and the body `{"name":"Al"}`
arriving whole fill the name `Al` with no error. -/
theorem ShouldBindJson_decodes_witness :
    ShouldBindJson exampleCodec
        (newContext (mkRequest "POST" "application/json" "13" [utf8 "\x7b\"name\":\"Al\"\x7d"]))
        { Name := "", Age := 0 } =
      BindOutcome.returned
        { ctx := newContext (mkRequest "POST" "application/json" "13" [])
          obj := { Name := "Al", Age := 0 }
          err := none } :=
  (ShouldBindJson_decodes exampleCodec
    (newContext (mkRequest "POST" "application/json" "13" [utf8 "\x7b\"name\":\"Al\"\x7d"]))
    { Name := "", Age := 0 } 13 (by decide) rfl (by decide) (by decide)).trans (by rfl)

/-- C10, at the failing input: a POST request with `Content-length` 13 whose body
supplies the 13 bytes `{"name":"Al"}` in two chunks, 7 bytes and then 6.
`ShouldBindJson` does one read, gets the first 7 bytes, and hands `json.Unmarshal`
those followed by 6 zero bytes, leaving the second chunk in the stream; the claim
has it return what the decoder makes of the first 13 bytes of the body.  With the
example decoder the binder returns an error where those 13 bytes decode to the name
`Al` with none. -/
theorem ShouldBindJson_split_body {τ : Type} (codec : Codec τ) (obj : τ) :
    ShouldBindJson codec
        (newContext (mkRequest "POST" "application/json" "13"
          [utf8 "\x7b\"name\"", utf8 ":\"Al\"\x7d"])) obj =
      BindOutcome.returned
        { ctx := newContext (mkRequest "POST" "application/json" "13" [utf8 ":\"Al\"\x7d"])
          obj := (codec.jsonUnmarshal (utf8 "\x7b\"name\"" ++ List.replicate 6 0) obj).1
          err := (codec.jsonUnmarshal (utf8 "\x7b\"name\"" ++ List.replicate 6 0) obj).2 } ∧
    ([utf8 "\x7b\"name\"", utf8 ":\"Al\"\x7d"] : List Bytes).flatten.take 13 =
      utf8 "\x7b\"name\":\"Al\"\x7d" ∧
    utf8 "\x7b\"name\"" ++ List.replicate 6 0 ≠ utf8 "\x7b\"name\":\"Al\"\x7d" ∧
    ShouldBindJson exampleCodec
        (newContext (mkRequest "POST" "application/json" "13"
          [utf8 "\x7b\"name\"", utf8 ":\"Al\"\x7d"])) { Name := "", Age := 0 } =
      BindOutcome.returned
        { ctx := newContext (mkRequest "POST" "application/json" "13" [utf8 ":\"Al\"\x7d"])
          obj := { Name := "", Age := 0 }
          err := some "invalid character" } ∧
    exampleCodec.jsonUnmarshal
        (([utf8 "\x7b\"name\"", utf8 ":\"Al\"\x7d"] : List Bytes).flatten.take 13)
        { Name := "", Age := 0 } = ({ Name := "Al", Age := 0 }, none) := by
  have hlen : Atoi "13" = Except.ok 13 := rfl
  have hread : bufioRead false [utf8 "\x7b\"name\"", utf8 ":\"Al\"\x7d"] 13 =
      (utf8 "\x7b\"name\"", none, [utf8 ":\"Al\"\x7d"]) := by decide
  have hl : (utf8 "\x7b\"name\"").length = 7 := by decide
  have hgen : ∀ {σ : Type} (cd : Codec σ) (o : σ),
      ShouldBindJson cd
        (newContext (mkRequest "POST" "application/json" "13"
          [utf8 "\x7b\"name\"", utf8 ":\"Al\"\x7d"])) o =
      BindOutcome.returned
        { ctx := newContext (mkRequest "POST" "application/json" "13" [utf8 ":\"Al\"\x7d"])
          obj := (cd.jsonUnmarshal (utf8 "\x7b\"name\"" ++ List.replicate 6 0) o).1
          err := (cd.jsonUnmarshal (utf8 "\x7b\"name\"" ++ List.replicate 6 0) o).2 } := by
    intro σ cd o
    simp [ShouldBindJson, newContext, mkRequest, Context.GetHeader, hlen, hread, hl]
  refine ⟨hgen codec obj, by decide, by decide, ?_, by decide⟩
  rw [hgen exampleCodec]
  have hdec : exampleCodec.jsonUnmarshal (utf8 "\x7b\"name\"" ++ List.replicate 6 0)
      { Name := "", Age := 0 } = ({ Name := "", Age := 0 }, some "invalid character") := by
    decide
  rw [hdec]

/-- The reader's direct path: on a non-GET request with `Content-length` `n` of at
least 4096 whose body delivers exactly its `n` bytes in one read and reports end of
stream with them, `ShouldBindJson` returns that `EOF`, the target untouched, without
decoding. -/
theorem ShouldBindJson_large_read_eof {τ : Type} (codec : Codec τ) (obj : τ) (c : Context)
    (n : Nat) (chunk : Bytes) (hm : c.Req.Method ≠ "GET")
    (hlen : Atoi (c.GetHeader "Content-length") = Except.ok (n : Int))
    (hn : defaultBufSize ≤ n) (hbody : c.Req.Body = [chunk]) (hchunk : chunk.length = n)
    (heof : c.Req.BodyEOFWithData = true) :
    ShouldBindJson codec c obj =
      BindOutcome.returned
        { ctx := { c with Req := { c.Req with Body := [] } }, obj := obj, err := some "EOF" } := by
  have h0 : n ≠ 0 := by
    have : 0 < defaultBufSize := by decide
    omega
  have hmax : max n defaultBufSize = n := max_eq_left hn
  have hread : bufioRead true [chunk] n = (chunk, some "EOF", []) := by
    unfold bufioRead
    rw [if_neg h0]
    have htake : List.take n chunk = chunk := List.take_of_length_le (le_of_eq hchunk)
    simp [hmax, hchunk, hn, htake]
  simp [ShouldBindJson, hm, hlen, hbody, heof, hread]

/-- The direct path at a concrete request: 4096 bytes declared, delivered in one
read together with end of stream. -/
theorem ShouldBindJson_large_read_eof_witness :
    ShouldBindJson exampleCodec
        (newContext { mkRequest "POST" "application/json" "4096" [List.replicate 4096 32] with
          BodyEOFWithData := true }) { Name := "", Age := 0 } =
      BindOutcome.returned
        { ctx := newContext { mkRequest "POST" "application/json" "4096" [] with
            BodyEOFWithData := true }
          obj := { Name := "", Age := 0 }
          err := some "EOF" } :=
  ShouldBindJson_large_read_eof exampleCodec { Name := "", Age := 0 }
    (newContext { mkRequest "POST" "application/json" "4096" [List.replicate 4096 32] with
      BodyEOFWithData := true })
    4096 (List.replicate 4096 32) (by decide) rfl (by decide) rfl (List.length_replicate _ _) rfl

/-! ## What a single call does to the chain state -/

theorem mem_afterFail {e : Event} : ∀ {es : List Event}, e ∈ afterFail es → e ∈ es
  | [], h => by simp [afterFail] at h
  | x :: xs, h => by
    unfold afterFail at h
    split at h
    · exact h
    · exact List.mem_cons_of_mem _ (mem_afterFail h)

theorem afterFail_append_of_fail : ∀ (es es' : List Event), (∃ e ∈ es, e.isFail = true) →
    afterFail (es ++ es') = afterFail es ++ es'
  | [], _, h => by simp at h
  | x :: xs, es', h => by
    by_cases hx : x.isFail = true
    · simp [afterFail, hx]
    · have hxs : ∃ e ∈ xs, e.isFail = true := by
        obtain ⟨e, he, hf⟩ := h
        rcases List.mem_cons.1 he with rfl | he
        · exact absurd hf hx
        · exact ⟨e, he, hf⟩
      simp [afterFail, hx, afterFail_append_of_fail xs es' hxs]

theorem afterFail_append_of_no_fail : ∀ (es es' : List Event), (∀ e ∈ es, e.isFail = false) →
    afterFail (es ++ es') = afterFail es'
  | [], _, _ => by simp
  | x :: xs, es', h => by
    have hx : x.isFail = false := h x (List.mem_cons_self _ _)
    have hxs : ∀ e ∈ xs, e.isFail = false := fun e he => h e (List.mem_cons_of_mem _ he)
    simp [afterFail, hx, afterFail_append_of_no_fail xs es' hxs]

theorem enters_append (es es' : List Event) : enters (es ++ es') = enters es ++ enters es' := by
  induction es with
  | nil => rfl
  | cons x xs ih => cases x <;> simp [enters, ih]

theorem enters_eq_self_of_no_enter : ∀ (es : List Event), (∀ i, Event.enter i ∉ es) →
    enters es = []
  | [], _ => rfl
  | x :: xs, h => by
    have hxs : ∀ i, Event.enter i ∉ xs := fun i hi => h i (List.mem_cons_of_mem _ hi)
    cases x with
    | enter i => exact absurd (List.mem_cons_self _ _) (h i)
    | _ => simpa [enters] using enters_eq_self_of_no_enter xs hxs

/-- What `JSON` changes: it appends header, status and body entries to the record
and sets the status code. -/
theorem JSON_spec (lib : Lib) (c : Context) (code : Int) (obj : Obj) :
    (Context.JSON lib c code obj).handlers = c.handlers ∧
    (Context.JSON lib c code obj).engine = c.engine ∧
    (Context.JSON lib c code obj).index = c.index ∧
    (Context.JSON lib c code obj).StatusCode = code ∧
    ∃ evs, (Context.JSON lib c code obj).trace = c.trace ++ evs ∧
      (∀ i, Event.enter i ∉ evs) ∧ (∀ e ∈ evs, e.isFail = false) := by
  unfold Context.JSON
  cases lib.jsonEncode obj with
  | ok bytes =>
    refine ⟨rfl, rfl, rfl, rfl,
      [Event.setHeader "Content-Type" "application/json", Event.writeHeader code,
        Event.write bytes], ?_, ?_, ?_⟩
    · simp [Context.emit, Context.Status, Context.SetHeader]
    · intro i; simp
    · intro e he; simp at he; rcases he with rfl | rfl | rfl <;> rfl
  | error err =>
    refine ⟨rfl, rfl, rfl, rfl,
      [Event.setHeader "Content-Type" "application/json", Event.writeHeader code,
        Event.setHeader "Content-Type" "text/plain; charset=utf-8",
        Event.setHeader "X-Content-Type-Options" "nosniff", Event.writeHeader 500,
        Event.write (utf8 (err ++ "\n"))], ?_, ?_, ?_⟩
    · simp [httpError, Context.emit, Context.Status, Context.SetHeader]
    · intro i; simp
    · intro e he; simp at he; rcases he with rfl | rfl | rfl | rfl | rfl | rfl <;> rfl

/-- What `Fail` changes: the cursor becomes the number of handlers, and the record
grows by the `Fail` marker and the entries of `JSON`. -/
theorem Fail_spec (lib : Lib) (c : Context) (code : Int) (err : String) :
    (Context.Fail lib c code err).handlers = c.handlers ∧
    (Context.Fail lib c code err).engine = c.engine ∧
    (Context.Fail lib c code err).index = (c.handlers.length : Int) ∧
    (Context.Fail lib c code err).StatusCode = code ∧
    ∃ evs, (Context.Fail lib c code err).trace = c.trace ++ evs ∧ (∀ i, Event.enter i ∉ evs) := by
  obtain ⟨h1, h2, h3, h4, evs, h5, h6, _⟩ :=
    JSON_spec lib (({ c with index := (c.handlers.length : Int) }).emit (Event.failCall code err))
      code (Obj.h [("message", GoVal.string err)])
  refine ⟨h1, h2, h3, h4, Event.failCall code err :: evs, ?_, ?_⟩
  · simpa [Context.Fail, Context.emit] using h5
  · intro i hi
    rcases List.mem_cons.1 hi with h | h
    · cases h
    · exact h6 i h

/-- What any single call does: handlers and engine stay, the cursor stays or
becomes the number of handlers, the record only grows, by entries that are not
handler invocations, and a `Fail` marker among them means the cursor is at the
number of handlers. -/
theorem Call.run_spec (lib : Lib) (call : Call) (c : Context) :
    (call.run lib c).ctx.handlers = c.handlers ∧
    (call.run lib c).ctx.engine = c.engine ∧
    ((call.run lib c).ctx.index = c.index ∨
      (call.run lib c).ctx.index = (c.handlers.length : Int)) ∧
    ∃ evs, (call.run lib c).ctx.trace = c.trace ++ evs ∧ (∀ i, Event.enter i ∉ evs) ∧
      ((∃ e ∈ evs, e.isFail = true) → (call.run lib c).ctx.index = (c.handlers.length : Int)) := by
  cases call with
  | set key val =>
    exact ⟨rfl, rfl, Or.inl rfl, [], by simp [Call.run, Outcome.ctx, Context.Set], by simp, by simp⟩
  | status code =>
    exact ⟨rfl, rfl, Or.inl rfl, [Event.writeHeader code],
      by simp [Call.run, Outcome.ctx, Context.Status, Context.emit], by simp, by simp [Event.isFail]⟩
  | setHeader key value =>
    exact ⟨rfl, rfl, Or.inl rfl, [Event.setHeader key value],
      by simp [Call.run, Outcome.ctx, Context.SetHeader, Context.emit], by simp,
      by simp [Event.isFail]⟩
  | string code text =>
    exact ⟨rfl, rfl, Or.inl rfl,
      [Event.setHeader "Content-Type" "text/plain", Event.writeHeader code, Event.write text],
      by simp [Call.run, Outcome.ctx, Context.StringBody, Context.Status, Context.SetHeader,
        Context.emit], by simp, by simp [Event.isFail]⟩
  | json code obj =>
    obtain ⟨h1, h2, h3, _, evs, h5, h6, h7⟩ := JSON_spec lib c code obj
    refine ⟨h1, h2, Or.inl h3, evs, h5, h6, ?_⟩
    rintro ⟨e, he, hf⟩
    rw [h7 e he] at hf; cases hf
  | data code bytes =>
    exact ⟨rfl, rfl, Or.inl rfl, [Event.writeHeader code, Event.write bytes],
      by simp [Call.run, Outcome.ctx, Context.Data, Context.Status, Context.emit], by simp,
      by simp [Event.isFail]⟩
  | html code name obj =>
    simp only [Call.run, Context.HTML]
    generalize hc1 : (c.SetHeader "Content-Type" "text/html").Status code = c1
    have ht : c1.trace =
        c.trace ++ [Event.setHeader "Content-Type" "text/html", Event.writeHeader code] := by
      rw [← hc1]; simp [Context.Status, Context.SetHeader, Context.emit]
    have hh : c1.handlers = c.handlers := by rw [← hc1]; rfl
    have hg : c1.engine = c.engine := by rw [← hc1]; rfl
    have hi : c1.index = c.index := by rw [← hc1]; rfl
    rcases hen : c1.engine with _ | e
    · exact ⟨hh, hg, Or.inl hi, _, ht, by simp, by simp [Event.isFail]⟩
    · dsimp only
      rcases hr : (e.htmlTemplates name obj).2 with _ | msg
      · refine ⟨hh, hen ▸ hg, Or.inl hi, [Event.setHeader "Content-Type" "text/html",
          Event.writeHeader code] ++ (e.htmlTemplates name obj).1.map Event.write,
          by simp [Outcome.ctx, ht], ?_, ?_⟩
        · intro i; simp
        · rintro ⟨x, hx, hf⟩
          simp at hx
          rcases hx with rfl | rfl | ⟨b, _, rfl⟩ <;> cases hf
      · dsimp only
        obtain ⟨h1, h2, h3, _, evs, h5, h6⟩ := Fail_spec lib
          { c1 with trace := c1.trace ++ (e.htmlTemplates name obj).1.map Event.write,
                    engine := some e } 500 msg
        refine ⟨h1.trans hh, h2.trans (hen ▸ hg), Or.inr (by rw [← hh]; exact h3),
          [Event.setHeader "Content-Type" "text/html",
          Event.writeHeader code] ++ (e.htmlTemplates name obj).1.map Event.write ++ evs,
          by simp only [Outcome.ctx]; rw [h5]; simp [ht], ?_, fun _ => by rw [← hh]; exact h3⟩
        intro i hi
        simp at hi
        exact h6 i hi
  | fail code err =>
    obtain ⟨h1, h2, h3, _, evs, h5, h6⟩ := Fail_spec lib c code err
    exact ⟨h1, h2, Or.inr h3, evs, h5, h6, fun _ => h3⟩
  | note tag =>
    exact ⟨rfl, rfl, Or.inl rfl, [Event.note tag c.StatusCode],
      by simp [Call.run, Outcome.ctx, Context.emit], by simp, by simp [Event.isFail]⟩

/-! ## An invariant rule for the chain controller

`P` is to hold while a handler body runs, `P'` at the loop test of `Next`, and
`Pp` of the context a fault leaves.  If every primitive step respects them, so
does every run of `loop`, `Next` and a handler body. -/

theorem runActs_sat (lib : Lib) (ok : Act → Prop) (P Pp : Context → Prop)
    (next : Context → Option Outcome)
    (hnext : ∀ c o, P c → next c = some o → o.sat P Pp)
    (hpanic : ∀ v c, ok (Act.panic v) → P c → Pp c)
    (hcall : ∀ call c, ok (Act.api call) → P c → (call.run lib c).sat P Pp) :
    ∀ (acts : List Act) (c : Context) (o : Outcome), (∀ a ∈ acts, ok a) → P c →
      runActs lib next acts c = some o → o.sat P Pp := by
  intro acts
  induction acts with
  | nil =>
    intro c o _ hP h
    simp only [runActs, Option.some.injEq] at h
    subst h; exact hP
  | cons a rest ih =>
    intro c o hok hP h
    have hrest : ∀ a ∈ rest, ok a := fun a ha => hok a (List.mem_cons_of_mem _ ha)
    cases a with
    | next =>
      simp only [runActs] at h
      rcases hn : next c with _ | r
      · rw [hn] at h; cases h
      · rw [hn] at h
        have hr := hnext c r hP hn
        cases r with
        | done c1 => exact ih c1 o hrest hr h
        | panicked c1 v => cases h; exact hr
    | panic v =>
      simp only [runActs, Option.some.injEq] at h
      subst h
      exact hpanic v c (hok _ (List.mem_cons_self _ _)) hP
    | api call =>
      simp only [runActs] at h
      have hr := hcall call c (hok _ (List.mem_cons_self _ _)) hP
      rcases hc : call.run lib c with c1 | ⟨c1, v⟩
      · rw [hc] at h hr; exact ih c1 o hrest hr h
      · rw [hc] at h hr; cases h; exact hr

theorem invoke_sat (lib : Lib) (ok : Act → Prop) (P Pp : Context → Prop)
    (next : Context → Option Outcome) (h : HandlerFunc)
    (hnext : ∀ c o, P c → next c = some o → o.sat P Pp)
    (hpanic : ∀ v c, ok (Act.panic v) → P c → Pp c)
    (hcall : ∀ call c, ok (Act.api call) → P c → (call.run lib c).sat P Pp)
    (hbody : ∀ a ∈ h.body, ok a)
    (hrecover : ∀ f, h.onPanic = some f → ∀ c, Pp c → P c ∧ ∀ v, ∀ a ∈ f v, ok a)
    (c : Context) (o : Outcome) (hP : P c) (hrun : h.invoke lib next c = some o) :
    o.sat P Pp := by
  unfold HandlerFunc.invoke at hrun
  rcases hb : runActs lib next h.body c with _ | r
  · rw [hb] at hrun; cases hrun
  · have hr := runActs_sat lib ok P Pp next hnext hpanic hcall h.body c r hbody hP hb
    rw [hb] at hrun
    cases r with
    | done c1 => cases hrun; exact hr
    | panicked c1 v =>
      dsimp only at hrun
      rcases hf : h.onPanic with _ | f
      · rw [hf] at hrun; cases hrun; exact hr
      · rw [hf] at hrun
        obtain ⟨hP1, hokf⟩ := hrecover f hf c1 hr
        exact runActs_sat lib ok P Pp next hnext hpanic hcall (f v) c1 o (hokf v) hP1 hrun

theorem loop_sat (lib : Lib) (hs : List HandlerFunc) (ok : Act → Prop)
    (P P' Pp : Context → Prop)
    (hhs : ∀ c, P' c → c.handlers = hs)
    (hbody : ∀ h ∈ hs, ∀ a ∈ h.body, ok a)
    (hrecover : ∀ h ∈ hs, ∀ f, h.onPanic = some f → ∀ c, Pp c → P c ∧ ∀ v, ∀ a ∈ f v, ok a)
    (hinc : ∀ c, P c → P' { c with index := c.index + 1 })
    (henter : ∀ c, P' c → 0 ≤ c.index → c.index < (hs.length : Int) →
      P (c.emit (Event.enter c.index.toNat)))
    (hexit : ∀ c, P' c → ¬ c.index < (hs.length : Int) → P c)
    (hoob : ∀ c, P' c → c.index < 0 → Pp c)
    (hpanic : ∀ v c, ok (Act.panic v) → P c → Pp c)
    (hcall : ∀ call c, ok (Act.api call) → P c → (call.run lib c).sat P Pp) :
    ∀ (fuel : Nat) (c : Context) (o : Outcome), P' c → loop lib fuel c = some o →
      o.sat P Pp := by
  intro fuel
  induction fuel with
  | zero => intro c o _ h; simp [loop] at h
  | succ fuel ih =>
    intro c o hP' h
    have hc := hhs c hP'
    unfold loop at h
    rw [hc] at h
    by_cases hlt : c.index < (hs.length : Int)
    · rw [if_pos hlt] at h
      by_cases h0 : 0 ≤ c.index
      · rw [if_pos h0] at h
        have hidx : c.index.toNat < hs.length := by omega
        rcases hg : hs.get? c.index.toNat with _ | hd
        · exact absurd hg (by simp [List.get?_eq_none]; omega)
        · rw [hg] at h
          dsimp only at h
          have hmem : hd ∈ hs := List.get?_mem hg
          have hnext : ∀ c1 o1, P c1 →
              loop lib fuel { c1 with index := c1.index + 1 } = some o1 → o1.sat P Pp :=
            fun c1 o1 hP1 h1 => ih _ o1 (hinc c1 hP1) h1
          rcases hi : hd.invoke lib (fun c1 => loop lib fuel { c1 with index := c1.index + 1 })
              (c.emit (Event.enter c.index.toNat)) with _ | r
          · rw [hi] at h; cases h
          · have hr := invoke_sat lib ok P Pp _ hd hnext hpanic hcall (hbody hd hmem)
              (hrecover hd hmem) _ r (henter c hP' h0 hlt) hi
            rw [hi] at h
            cases r with
            | done c2 => exact ih _ o (hinc c2 hr) h
            | panicked c2 v => cases h; exact hr
      · rw [if_neg h0] at h
        cases h
        exact hoob c hP' (by omega)
    · rw [if_neg hlt] at h
      cases h
      exact hexit c hP' hlt

theorem chain_sat (lib : Lib) (hs : List HandlerFunc) (ok : Act → Prop)
    (P P' Pp : Context → Prop)
    (hhs : ∀ c, P' c → c.handlers = hs)
    (hbody : ∀ h ∈ hs, ∀ a ∈ h.body, ok a)
    (hrecover : ∀ h ∈ hs, ∀ f, h.onPanic = some f → ∀ c, Pp c → P c ∧ ∀ v, ∀ a ∈ f v, ok a)
    (hinc : ∀ c, P c → P' { c with index := c.index + 1 })
    (henter : ∀ c, P' c → 0 ≤ c.index → c.index < (hs.length : Int) →
      P (c.emit (Event.enter c.index.toNat)))
    (hexit : ∀ c, P' c → ¬ c.index < (hs.length : Int) → P c)
    (hoob : ∀ c, P' c → c.index < 0 → Pp c)
    (hpanic : ∀ v c, ok (Act.panic v) → P c → Pp c)
    (hcall : ∀ call c, ok (Act.api call) → P c → (call.run lib c).sat P Pp) :
    (∀ fuel c o, P c → Next lib fuel c = some o → o.sat P Pp) ∧
    (∀ fuel acts c o, (∀ a ∈ acts, ok a) → P c →
      runActs lib (Next lib fuel) acts c = some o → o.sat P Pp) := by
  have hNext : ∀ fuel c o, P c → Next lib fuel c = some o → o.sat P Pp :=
    fun fuel c o hP h =>
      loop_sat lib hs ok P P' Pp hhs hbody hrecover hinc henter hexit hoob hpanic hcall
        fuel _ o (hinc c hP) h
  exact ⟨hNext, fun fuel acts c o hok hP h =>
    runActs_sat lib ok P Pp (Next lib fuel) (hNext fuel) hpanic hcall acts c o hok hP h⟩

/-! ## Termination of the loop -/

theorem Call.run_remaining (lib : Lib) (call : Call) (c : Context) :
    (call.run lib c).ctx.handlers = c.handlers ∧
    (call.run lib c).ctx.remaining ≤ c.remaining := by
  obtain ⟨h1, _, h3, _⟩ := Call.run_spec lib call c
  refine ⟨h1, ?_⟩
  simp only [Context.remaining, h1]
  rcases h3 with h | h
  · rw [h]
  · rw [h]; omega

theorem runActs_total (lib : Lib) (hs : List HandlerFunc) (r : Nat)
    (next : Context → Option Outcome)
    (hnext : ∀ c, c.handlers = hs → c.remaining ≤ r →
      ∃ o, next c = some o ∧ o.ctx.handlers = hs ∧ o.ctx.remaining ≤ c.remaining) :
    ∀ (acts : List Act) (c : Context), c.handlers = hs → c.remaining ≤ r →
      ∃ o, runActs lib next acts c = some o ∧ o.ctx.handlers = hs ∧
        o.ctx.remaining ≤ c.remaining := by
  intro acts
  induction acts with
  | nil => intro c hc _; exact ⟨Outcome.done c, rfl, hc, le_refl _⟩
  | cons a rest ih =>
    intro c hc hr
    cases a with
    | next =>
      obtain ⟨o1, h1, h2, h3⟩ := hnext c hc hr
      cases o1 with
      | done c1 =>
        obtain ⟨o, h4, h5, h6⟩ := ih c1 h2 (le_trans h3 hr)
        exact ⟨o, by simp only [runActs, h1]; exact h4, h5, le_trans h6 h3⟩
      | panicked c1 v => exact ⟨_, by simp only [runActs, h1], h2, h3⟩
    | panic v => exact ⟨_, rfl, hc, le_refl _⟩
    | api call =>
      obtain ⟨h2, h3⟩ := Call.run_remaining lib call c
      rcases hrun : call.run lib c with c1 | ⟨c1, v⟩
      · rw [hrun] at h2 h3
        obtain ⟨o, h4, h5, h6⟩ := ih c1 (h2.trans hc) (le_trans h3 hr)
        exact ⟨o, by simp only [runActs, hrun]; exact h4, h5, le_trans h6 h3⟩
      · rw [hrun] at h2 h3
        exact ⟨_, by simp only [runActs, hrun], h2.trans hc, h3⟩

theorem invoke_total (lib : Lib) (hs : List HandlerFunc) (r : Nat)
    (next : Context → Option Outcome)
    (hnext : ∀ c, c.handlers = hs → c.remaining ≤ r →
      ∃ o, next c = some o ∧ o.ctx.handlers = hs ∧ o.ctx.remaining ≤ c.remaining)
    (h : HandlerFunc) (c : Context) (hc : c.handlers = hs) (hr : c.remaining ≤ r) :
    ∃ o, h.invoke lib next c = some o ∧ o.ctx.handlers = hs ∧
      o.ctx.remaining ≤ c.remaining := by
  obtain ⟨o1, h1, h2, h3⟩ := runActs_total lib hs r next hnext h.body c hc hr
  unfold HandlerFunc.invoke
  rw [h1]
  cases o1 with
  | done c1 => exact ⟨_, rfl, h2, h3⟩
  | panicked c1 v =>
    dsimp only
    rcases hf : h.onPanic with _ | f
    · exact ⟨_, rfl, h2, h3⟩
    · obtain ⟨o, h4, h5, h6⟩ := runActs_total lib hs r next hnext (f v) c1 h2 (le_trans h3 hr)
      exact ⟨o, h4, h5, le_trans h6 h3⟩

/-- The loop returns whenever the fuel exceeds the number of handlers at or after
the cursor, whatever the handlers do; handlers stay and that number does not grow. -/
theorem loop_total (lib : Lib) (hs : List HandlerFunc) :
    ∀ (fuel : Nat) (c : Context), c.handlers = hs → c.remaining < fuel →
      ∃ o, loop lib fuel c = some o ∧ o.ctx.handlers = hs ∧
        o.ctx.remaining ≤ c.remaining := by
  intro fuel
  induction fuel with
  | zero => intro c _ h; omega
  | succ fuel ih =>
    intro c hc hfuel
    unfold loop
    rw [hc]
    by_cases hlt : c.index < (hs.length : Int)
    · rw [if_pos hlt]
      by_cases h0 : 0 ≤ c.index
      · rw [if_pos h0]
        have hrem : 1 ≤ c.remaining := by simp only [Context.remaining, hc]; omega
        rcases hg : hs.get? c.index.toNat with _ | hd
        · exact ⟨_, rfl, hc, le_refl _⟩
        · dsimp only
          have hstep : ∀ c1 : Context, c1.handlers = hs → c1.remaining ≤ c.remaining →
              ∃ o, loop lib fuel { c1 with index := c1.index + 1 } = some o ∧
                o.ctx.handlers = hs ∧ o.ctx.remaining ≤ c1.remaining := by
            intro c1 hc1 hr1
            have hlt1 : ({ c1 with index := c1.index + 1 } : Context).remaining < fuel := by
              simp only [Context.remaining, hc1, hc] at hr1 hrem hfuel ⊢; omega
            have hle1 : ({ c1 with index := c1.index + 1 } : Context).remaining ≤ c1.remaining := by
              simp only [Context.remaining]; omega
            obtain ⟨o, h1, h2, h3⟩ := ih { c1 with index := c1.index + 1 } hc1 hlt1
            exact ⟨o, h1, h2, le_trans h3 hle1⟩
          obtain ⟨o1, h1, h2, h3⟩ := invoke_total lib hs c.remaining _ hstep hd
            (c.emit (Event.enter c.index.toNat)) hc (le_refl _)
          rw [h1]
          cases o1 with
          | done c2 =>
            obtain ⟨o, h4, h5, h6⟩ := hstep c2 h2 h3
            exact ⟨o, h4, h5, le_trans h6 h3⟩
          | panicked c2 v => exact ⟨_, rfl, h2, h3⟩
      · rw [if_neg h0]
        exact ⟨_, rfl, hc, le_refl _⟩
    · rw [if_neg hlt]
      exact ⟨_, rfl, hc, le_refl _⟩

/-- When the loop returns without a fault, the cursor is at or beyond the number of
handlers. -/
theorem loop_done_completed (lib : Lib) :
    ∀ (fuel : Nat) (c c' : Context), loop lib fuel c = some (Outcome.done c') →
      (c'.handlers.length : Int) ≤ c'.index := by
  intro fuel
  induction fuel with
  | zero => intro c c' h; simp [loop] at h
  | succ fuel ih =>
    intro c c' h
    unfold loop at h
    by_cases hlt : c.index < (c.handlers.length : Int)
    · rw [if_pos hlt] at h
      by_cases h0 : 0 ≤ c.index
      · rw [if_pos h0] at h
        rcases hg : c.handlers.get? c.index.toNat with _ | hd
        · rw [hg] at h; cases h
        · rw [hg] at h
          dsimp only at h
          rcases hi : hd.invoke lib (fun c1 => loop lib fuel { c1 with index := c1.index + 1 })
              (c.emit (Event.enter c.index.toNat)) with _ | r
          · rw [hi] at h; cases h
          · rw [hi] at h
            cases r with
            | done c2 => exact ih _ c' h
            | panicked c2 v => cases h
      · rw [if_neg h0] at h; cases h
    · rw [if_neg hlt] at h
      cases h
      omega

/-! ## The chain controller (C1 to C4) -/

/-- A quiet call returns, leaves handlers, engine and cursor alone, and invokes no
handler. -/
theorem Call.run_quiet (lib : Lib) (call : Call) (c : Context)
    (hq : call.quiet c.engine = true) :
    ∃ c1, call.run lib c = Outcome.done c1 ∧ c1.handlers = c.handlers ∧
      c1.engine = c.engine ∧ c1.index = c.index ∧ enters c1.trace = enters c.trace := by
  obtain ⟨h1, h2, _, evs, h5, h6, _⟩ := Call.run_spec lib call c
  have htr : enters (call.run lib c).ctx.trace = enters c.trace := by
    rw [h5, enters_append, enters_eq_self_of_no_enter evs h6, List.append_nil]
  cases call with
  | fail code err => simp [Call.quiet] at hq
  | html code name obj =>
    obtain ⟨e, he, hr⟩ : ∃ e, c.engine = some e ∧ (e.htmlTemplates name obj).2 = none := by
      simp only [Call.quiet] at hq
      rcases hen : c.engine with _ | e
      · rw [hen] at hq; cases hq
      · rw [hen] at hq
        exact ⟨e, rfl, by simpa using hq⟩
    have hd : ∃ c1, (Call.html code name obj).run lib c = Outcome.done c1 ∧
        c1.index = c.index := by
      simp only [Call.run, Context.HTML]
      rw [show ((c.SetHeader "Content-Type" "text/html").Status code).engine = some e from he]
      dsimp only
      rw [hr]
      exact ⟨_, rfl, rfl⟩
    obtain ⟨c1, hd1, hd2⟩ := hd
    rw [hd1] at h1 h2 htr
    exact ⟨c1, hd1, h1, h2, hd2, htr⟩
  | json code obj => exact ⟨_, rfl, h1, h2, (JSON_spec lib c code obj).2.2.1, htr⟩
  | set key val => exact ⟨_, rfl, h1, h2, rfl, htr⟩
  | status code => exact ⟨_, rfl, h1, h2, rfl, htr⟩
  | setHeader key value => exact ⟨_, rfl, h1, h2, rfl, htr⟩
  | string code text => exact ⟨_, rfl, h1, h2, rfl, htr⟩
  | data code bytes => exact ⟨_, rfl, h1, h2, rfl, htr⟩
  | note tag => exact ⟨_, rfl, h1, h2, rfl, htr⟩

/-- C1: attach a chain of `N` handlers to a fresh context (cursor `-1`); if no
handler calls `Fail` or faults (each may call `Next` any number of times), then one
call of `Next` from outside returns, with any fuel above `N`, and the handlers it
invoked are, in order, those at indices `0, 1, ..., N-1`: increasing, each exactly
once. -/
theorem Next_runs_each_handler_once (lib : Lib) (req : Request) (hs : List HandlerFunc)
    (engine : Option Engine) (fuel : Nat)
    (hquiet : ∀ h ∈ hs, ∀ a ∈ h.body, a.quiet engine = true) (hfuel : hs.length < fuel) :
    ∃ c', Next lib fuel (attach req hs engine) = some (Outcome.done c') ∧
      enters c'.trace = List.range hs.length := by
  let P : Context → Prop := fun c =>
    c.handlers = hs ∧ c.engine = engine ∧ ∃ m : Nat, enters c.trace = List.range m ∧
      (c.index < (hs.length : Int) → (m : Int) = c.index + 1) ∧
      ((hs.length : Int) ≤ c.index → m = hs.length)
  let P' : Context → Prop := fun c =>
    c.handlers = hs ∧ c.engine = engine ∧ ∃ m : Nat, enters c.trace = List.range m ∧
      (c.index < (hs.length : Int) → (m : Int) = c.index) ∧
      ((hs.length : Int) ≤ c.index → m = hs.length)
  have hstart : P' { attach req hs engine with index := (attach req hs engine).index + 1 } :=
    ⟨rfl, rfl, 0, rfl, fun _ => rfl, fun h => by
      have h' : (hs.length : Int) ≤ 0 := h
      omega⟩
  obtain ⟨o, hrun, _, _⟩ := loop_total lib hs fuel
    { attach req hs engine with index := (attach req hs engine).index + 1 } rfl
    (by simp only [Context.remaining, attach, newContext]; omega)
  have hsat : o.sat P (fun _ => False) := by
    refine loop_sat lib hs (fun a => a.quiet engine = true) P P' (fun _ => False)
      (fun c h => h.1) hquiet
      (fun _ _ _ _ _ h => h.elim) ?_ ?_ ?_ ?_ ?_ ?_ fuel _ o hstart hrun
    · rintro c ⟨h1, h2, m, h3, h4, h5⟩
      refine ⟨h1, h2, m, h3, fun h => ?_, fun h => ?_⟩
      · have h' : c.index + 1 < (hs.length : Int) := h
        show (m : Int) = c.index + 1
        exact h4 (by omega)
      · have h' : (hs.length : Int) ≤ c.index + 1 := h
        by_cases hlt : c.index < (hs.length : Int)
        · have := h4 hlt; omega
        · exact h5 (by omega)
    · rintro c ⟨h1, h2, m, h3, h4, h5⟩ h0 hlt
      have hm := h4 hlt
      have hto : c.index.toNat = m := by omega
      refine ⟨h1, h2, m + 1, ?_, fun _ => ?_, fun h => ?_⟩
      · simp only [Context.emit, enters_append, h3, hto, enters, List.range_succ]
      · show ((m + 1 : Nat) : Int) = c.index + 1
        omega
      · have h' : (hs.length : Int) ≤ c.index := h
        omega
    · rintro c ⟨h1, h2, m, h3, h4, h5⟩ hge
      exact ⟨h1, h2, m, h3, fun h => absurd h hge, fun h => h5 h⟩
    · rintro c ⟨h1, h2, m, h3, h4, h5⟩ hneg
      have hm := h4 (by omega)
      omega
    · intro v c hq; simp [Act.quiet] at hq
    · rintro call c hq ⟨h1, h2, m, h3, h4, h5⟩
      obtain ⟨c1, hd, g1, g2, g3, g4⟩ := Call.run_quiet lib call c (h2 ▸ hq)
      rw [hd]
      exact ⟨g1.trans h1, g2.trans h2, m, g4.trans h3, by rw [g3]; exact h4, by rw [g3]; exact h5⟩
  cases o with
  | panicked c' v => exact hsat.elim
  | done c' =>
    obtain ⟨h1, _, m, h3, _, h5⟩ := hsat
    have hdone := loop_done_completed lib fuel _ c' hrun
    rw [h1] at hdone
    exact ⟨c', hrun, by rw [h3, h5 hdone]⟩

/-- C1, at the chain `[Logger, demoHandler]`: both run, `Logger` first. -/
theorem Next_runs_each_handler_once_witness :
    ∃ c', Next exampleLib 3 (attach plainRequest [Logger, demoHandler] none) =
        some (Outcome.done c') ∧
      enters c'.trace = List.range [Logger, demoHandler].length :=
  Next_runs_each_handler_once exampleLib plainRequest [Logger, demoHandler] none 3
    (by simp [Logger, demoHandler, Act.quiet, Call.quiet]) (by decide)

/-- C2 as stated fails: in the chain `[failAfterNext, noteHandler]` the handler at
index 0 calls `Fail` (its marker is in the record), yet the handler at index 1 was
invoked and did its work, because handler 0 had called `Next` before. -/
theorem Fail_after_Next_counterexample :
    ∃ c', Next exampleLib 3 (attach plainRequest [failAfterNext, noteHandler] none) =
        some (Outcome.done c') ∧
      enters c'.trace = [0, 1] ∧
      c'.trace.take 4 =
        [Event.enter 0, Event.enter 1, Event.note "ran" 0, Event.failCall 500 "boom"] := by
  refine ⟨_, rfl, ?_, ?_⟩ <;> decide

/-- C2, amended: a call of `Fail(code, message)` sets the status code to `code`,
puts the cursor at the number of handlers and, when the encoder renders
`{"message": message}` as `body`, appends to the response the `Content-Type`
header, the status `code` and exactly `body`; and in every run of `Next` on a fresh
context with any chain, no handler is invoked after the first call of `Fail`. -/
theorem Fail_ends_the_chain (lib : Lib) :
    (∀ (c : Context) (code : Int) (err : String) (body : Bytes),
      lib.jsonEncode (Obj.h [("message", GoVal.string err)]) = Except.ok body →
      (Context.Fail lib c code err).StatusCode = code ∧
      (Context.Fail lib c code err).index = (c.handlers.length : Int) ∧
      (Context.Fail lib c code err).trace =
        c.trace ++ [Event.failCall code err, Event.setHeader "Content-Type" "application/json",
          Event.writeHeader code, Event.write body]) ∧
    (∀ (req : Request) (hs : List HandlerFunc) (engine : Option Engine) (fuel : Nat)
      (o : Outcome), Next lib fuel (attach req hs engine) = some o →
      ∀ i, Event.enter i ∉ afterFail o.ctx.trace) := by
  constructor
  · intro c code err body henc
    refine ⟨(Fail_spec lib c code err).2.2.2.1, (Fail_spec lib c code err).2.2.1, ?_⟩
    simp [Context.Fail, Context.JSON, henc, Context.emit, Context.Status, Context.SetHeader]
  · intro req hs engine fuel o hrun
    let P : Context → Prop := fun c =>
      c.handlers = hs ∧ (∀ i, Event.enter i ∉ afterFail c.trace) ∧
        ((∃ e ∈ c.trace, e.isFail = true) → (hs.length : Int) ≤ c.index)
    have hP0 : P (attach req hs engine) :=
      ⟨rfl, by simp [attach, newContext, afterFail], by simp [attach, newContext]⟩
    have hsat : o.sat P P := by
      refine (chain_sat lib hs (fun _ => True) P P P (fun c h => h.1) (fun _ _ _ _ => trivial)
        (fun _ _ _ _ c h => ⟨h, fun _ _ _ => trivial⟩) ?_ ?_ (fun c h _ => h) (fun c h _ => h)
        (fun _ c _ h => h) ?_).1 fuel _ o hP0 hrun
      · rintro c ⟨h1, h2, h3⟩
        exact ⟨h1, h2, fun h => by have := h3 h; show (hs.length : Int) ≤ c.index + 1; omega⟩
      · rintro c ⟨h1, h2, h3⟩ _ hlt
        have hno : ∀ e ∈ c.trace, e.isFail = false := by
          intro e he
          by_contra hf
          have := h3 ⟨e, he, by simpa using hf⟩
          omega
        refine ⟨h1, ?_, ?_⟩
        · intro i hi
          simp only [Context.emit, afterFail_append_of_no_fail _ _ hno] at hi
          simp [afterFail, Event.isFail] at hi
        · rintro ⟨e, he, hf⟩
          simp only [Context.emit, List.mem_append, List.mem_singleton] at he
          rcases he with he | rfl
          · rw [hno e he] at hf; cases hf
          · cases hf
      · rintro call c _ ⟨h1, h2, h3⟩
        obtain ⟨g1, _, g3, evs, g5, g6, g7⟩ := Call.run_spec lib call c
        have key : P (call.run lib c).ctx := by
          refine ⟨g1.trans h1, ?_, ?_⟩
          · intro i hi
            rw [g5] at hi
            by_cases hf : ∃ e ∈ c.trace, e.isFail = true
            · rw [afterFail_append_of_fail _ _ hf] at hi
              rcases List.mem_append.1 hi with hi | hi
              · exact h2 i hi
              · exact g6 i hi
            · have hno : ∀ e ∈ c.trace, e.isFail = false := by
                intro e he
                by_contra hf'
                exact hf ⟨e, he, by simpa using hf'⟩
              rw [afterFail_append_of_no_fail _ _ hno] at hi
              exact g6 i (mem_afterFail hi)
          · rintro ⟨e, he, hf⟩
            rw [g5] at he
            rcases List.mem_append.1 he with he | he
            · have := h3 ⟨e, he, hf⟩
              rcases g3 with g | g
              · rw [g]; exact this
              · rw [g, h1]
            · rw [g7 ⟨e, he, hf⟩, h1]
        cases hrun : call.run lib c with
        | done c1 => rw [hrun] at key; exact key
        | panicked c1 v => rw [hrun] at key; exact key
    cases o with
    | done c' => exact hsat.2.1
    | panicked c' v => exact hsat.2.1

/-- C2 amended, at concrete inputs: `Fail(404, "nope")` on a fresh context, and the
run of the chain `[failAfterNext, noteHandler]`. -/
theorem Fail_ends_the_chain_witness :
    ((Context.Fail exampleLib (attach plainRequest [] none) 404 "nope").StatusCode = 404 ∧
      (Context.Fail exampleLib (attach plainRequest [] none) 404 "nope").index = 0 ∧
      (Context.Fail exampleLib (attach plainRequest [] none) 404 "nope").trace =
        [Event.failCall 404 "nope", Event.setHeader "Content-Type" "application/json",
          Event.writeHeader 404, Event.write (utf8 "\x7b\"message\":\"nope\"\x7d\n")]) ∧
    ∀ o, Next exampleLib 3 (attach plainRequest [failAfterNext, noteHandler] none) = some o →
      ∀ i, Event.enter i ∉ afterFail o.ctx.trace :=
  ⟨(Fail_ends_the_chain exampleLib).1 (attach plainRequest [] none) 404 "nope"
      (utf8 "\x7b\"message\":\"nope\"\x7d\n") rfl,
    fun o h => (Fail_ends_the_chain exampleLib).2 plainRequest [failAfterNext, noteHandler]
      none 3 o h⟩

/-- C3: on a context that is Completed (cursor at or beyond the number of
handlers), `Next` returns having changed nothing but the cursor, which it moves one
further: no handler is invoked, nothing is written, and the context is Completed
still.  Hence any number `n` of further calls of `Next` only moves the cursor by `n`. -/
theorem Next_when_completed (lib : Lib) (fuel : Nat) (c : Context)
    (hdone : (c.handlers.length : Int) ≤ c.index) :
    Next lib (fuel + 1) c = some (Outcome.done { c with index := c.index + 1 }) ∧
    (c.handlers.length : Int) ≤ c.index + 1 ∧
    ∀ n : Nat, runActs lib (Next lib (fuel + 1)) (List.replicate n Act.next) c =
      some (Outcome.done { c with index := c.index + n }) := by
  have hone : ∀ c : Context, (c.handlers.length : Int) ≤ c.index →
      Next lib (fuel + 1) c = some (Outcome.done { c with index := c.index + 1 }) := by
    intro c h
    have hnot : ¬ c.index + 1 < (c.handlers.length : Int) := by omega
    simp only [Next, loop, if_neg hnot]
  refine ⟨hone c hdone, by omega, ?_⟩
  intro n
  induction n generalizing c with
  | zero => simp [runActs]
  | succ n ih =>
    have hstep := ih { c with index := c.index + 1 } (by
      show (c.handlers.length : Int) ≤ c.index + 1
      omega)
    simp only [List.replicate_succ, runActs, hone c hdone]
    rw [hstep]
    simp only [Nat.cast_succ, Nat.cast_add, Nat.cast_one]
    congr 3
    omega

/-- C3, on the context a one-handler chain leaves behind: it is Completed, and a
further `Next` invokes nothing. -/
theorem Next_when_completed_witness :
    ∃ c1, Next exampleLib 2 (attach plainRequest [noteHandler] none) = some (Outcome.done c1) ∧
      (c1.handlers.length : Int) ≤ c1.index ∧
      Next exampleLib 1 c1 = some (Outcome.done { c1 with index := c1.index + 1 }) :=
  ⟨_, rfl, by decide, (Next_when_completed exampleLib 0 _ (by decide)).1⟩

/-- The cursor never falls below a bound that is at most the number of handlers. -/
theorem cursor_bound (lib : Lib) (hs : List HandlerFunc) (b : Int) (hb : b ≤ (hs.length : Int)) :
    (∀ fuel c o, c.handlers = hs → b ≤ c.index → loop lib fuel c = some o →
      o.ctx.handlers = hs ∧ b ≤ o.ctx.index) ∧
    (∀ fuel (h : HandlerFunc) c o, c.handlers = hs → b ≤ c.index →
      h.invoke lib (Next lib fuel) c = some o → o.ctx.handlers = hs ∧ b ≤ o.ctx.index) := by
  let P : Context → Prop := fun c => c.handlers = hs ∧ b ≤ c.index
  have hinc : ∀ c, P c → P { c with index := c.index + 1 } := by
    rintro c ⟨h1, h2⟩
    exact ⟨h1, by show b ≤ c.index + 1; omega⟩
  have hcall : ∀ (call : Call) (c : Context), True → P c → (call.run lib c).sat P P := by
    rintro call c _ ⟨h1, h2⟩
    obtain ⟨g1, _, g3, _⟩ := Call.run_spec lib call c
    have key : P (call.run lib c).ctx := by
      refine ⟨g1.trans h1, ?_⟩
      rcases g3 with g | g
      · rw [g]; exact h2
      · rw [g, h1]; exact hb
    cases hrun : call.run lib c with
    | done c1 => rw [hrun] at key; exact key
    | panicked c1 v => rw [hrun] at key; exact key
  have hloop : ∀ fuel c o, P c → loop lib fuel c = some o → o.sat P P :=
    loop_sat lib hs (fun _ => True) P P P (fun c h => h.1) (fun _ _ _ _ => trivial)
      (fun _ _ _ _ c h => ⟨h, fun _ _ _ => trivial⟩) hinc (fun c h _ _ => h)
      (fun c h _ => h) (fun c h _ => h) (fun _ c _ h => h) hcall
  have hout : ∀ o : Outcome, o.sat P P → o.ctx.handlers = hs ∧ b ≤ o.ctx.index := by
    intro o h
    cases o with
    | done c' => exact h
    | panicked c' v => exact h
  refine ⟨fun fuel c o h1 h2 h => hout o (hloop fuel c o ⟨h1, h2⟩ h), ?_⟩
  intro fuel h c o h1 h2 hrun
  exact hout o (invoke_sat lib (fun _ => True) P P (Next lib fuel) h
    (fun c1 o1 hP1 hr => hloop fuel _ o1 (hinc c1 hP1) hr) (fun _ c _ h => h) hcall
    (fun _ _ => trivial) (fun _ _ c h => ⟨h, fun _ _ _ => trivial⟩) c o ⟨h1, h2⟩ hrun)

/-- C4 as stated fails: `nextTwiceThenFail`, alone in a chain, is invoked with the
cursor at 0; after its two calls of `Next` the cursor is 2, and its call of `Fail`
then sets the cursor to 1, the number of handlers. -/
theorem Fail_lowers_cursor_counterexample :
    ∃ c2, runActs exampleLib (Next exampleLib 2) [Act.next, Act.next]
        (({ attach plainRequest [nextTwiceThenFail] none with index := 0 } : Context).emit
          (Event.enter 0)) = some (Outcome.done c2) ∧
      c2.index = 2 ∧ (Context.Fail exampleLib c2 500 "late").index = 1 ∧
      (Context.Fail exampleLib c2 500 "late").index < c2.index := by
  refine ⟨_, rfl, ?_, ?_, ?_⟩ <;> decide

/-- C4, amended: `Next` always leaves the cursor strictly greater than it found it,
whatever the handlers do and whether it returns or a fault ends it; `Fail` sets the
cursor to the number of handlers, so it does not lower a cursor that is at most that
number; and running a handler never leaves the cursor below the smaller of the
cursor before and the number of handlers. -/
theorem cursor_moves_forward (lib : Lib) :
    (∀ (fuel : Nat) (c : Context) (o : Outcome), Next lib fuel c = some o →
      c.index < o.ctx.index) ∧
    (∀ (c : Context) (code : Int) (err : String),
      (Context.Fail lib c code err).index = (c.handlers.length : Int) ∧
      (c.index ≤ (c.handlers.length : Int) → c.index ≤ (Context.Fail lib c code err).index)) ∧
    (∀ (fuel : Nat) (h : HandlerFunc) (c : Context) (o : Outcome),
      h.invoke lib (Next lib fuel) c = some o →
      min c.index (c.handlers.length : Int) ≤ o.ctx.index) := by
  refine ⟨?_, ?_, ?_⟩
  · intro fuel c o hrun
    by_cases hle : c.index + 1 ≤ (c.handlers.length : Int)
    · have := ((cursor_bound lib c.handlers (c.index + 1) hle).1 fuel
        { c with index := c.index + 1 } o rfl (le_refl _) hrun).2
      omega
    · cases fuel with
      | zero => simp [Next, loop] at hrun
      | succ fuel =>
        have hnot : ¬ c.index + 1 < (c.handlers.length : Int) := by omega
        simp only [Next, loop, if_neg hnot, Option.some.injEq] at hrun
        subst hrun
        show c.index < c.index + 1
        omega
  · intro c code err
    have h := (Fail_spec lib c code err).2.2.1
    exact ⟨h, fun hle => by rw [h]; exact hle⟩
  · intro fuel h c o hrun
    exact ((cursor_bound lib c.handlers (min c.index (c.handlers.length : Int))
      (min_le_right _ _)).2 fuel h c o rfl (min_le_left _ _) hrun).2

/-- C4 amended, on the chain `[Logger, demoHandler]`: the outside call of `Next`
moves the cursor from `-1` forward, and a `Fail` on the fresh context puts it at 2. -/
theorem cursor_moves_forward_witness :
    (∀ o, Next exampleLib 3 (attach plainRequest [Logger, demoHandler] none) = some o →
      (attach plainRequest [Logger, demoHandler] none).index < o.ctx.index) ∧
    (attach plainRequest [Logger, demoHandler] none).index ≤
      (Context.Fail exampleLib (attach plainRequest [Logger, demoHandler] none) 500 "x").index :=
  ⟨fun o h => (cursor_moves_forward exampleLib).1 3 _ o h,
    ((cursor_moves_forward exampleLib).2.1 _ 500 "x").2 (by decide)⟩

/-! ## The content binder, continued (C11, C12) -/

/-- C11, at the failing input: on a POST request with `Content-length` 26,
`ShouldBindXml` returns what `xml.Unmarshal` makes of 26 zero bytes, whatever the
body is, and hands back the body stream unread; the claim has it read 26 bytes of
the body and decode those. -/
theorem ShouldBindXml_ignores_body {τ : Type} (codec : Codec τ) (obj : τ) (body : List Bytes) :
    ShouldBindXml codec (newContext (mkRequest "POST" "application/xml" "26" body)) obj =
      BindOutcome.returned
        { ctx := newContext (mkRequest "POST" "application/xml" "26" body)
          obj := (codec.xmlUnmarshal (List.replicate 26 0) obj).1
          err := (codec.xmlUnmarshal (List.replicate 26 0) obj).2 } := by
  have hlen : Atoi "26" = Except.ok 26 := rfl
  simp [ShouldBindXml, newContext, mkRequest, Context.GetHeader, hlen]

/-- C12, at the failing input: on a POST request with `Content-length` 13 whose
body yields the 7 bytes `{"name"` on the read, `ShouldBindJson` reports no
truncation: it hands `json.Unmarshal` the 7 bytes followed by 6 zero bytes and
returns whatever the decoder returns. -/
theorem ShouldBindJson_short_read {τ : Type} (codec : Codec τ) (obj : τ) :
    ShouldBindJson codec
        (newContext (mkRequest "POST" "application/json" "13" [utf8 "\x7b\"name\""])) obj =
      BindOutcome.returned
        { ctx := newContext (mkRequest "POST" "application/json" "13" [])
          obj := (codec.jsonUnmarshal (utf8 "\x7b\"name\"" ++ List.replicate 6 0) obj).1
          err := (codec.jsonUnmarshal (utf8 "\x7b\"name\"" ++ List.replicate 6 0) obj).2 } := by
  have hlen : Atoi "13" = Except.ok 13 := rfl
  have hread : bufioRead false [utf8 "\x7b\"name\""] 13 = (utf8 "\x7b\"name\"", none, []) := by
    decide
  have hl : (utf8 "\x7b\"name\"").length = 7 := by decide
  simp [ShouldBindJson, newContext, mkRequest, Context.GetHeader, hlen, hread, hl]

/-! ## Response writers (C13, C14) -/

/-- C13 as stated fails for `Data`: it sends the status and the bytes and never
sets a `Content-Type` header. -/
theorem Data_sets_no_content_type_counterexample :
    (Context.Data (attach plainRequest [] none) 200 (utf8 "abc")).trace =
      [Event.writeHeader 200, Event.write (utf8 "abc")] ∧
    (Context.Data (attach plainRequest [] none) 200 (utf8 "abc")).trace.any Event.isContentType =
      false := by
  constructor <;> decide

/-- C13, amended: `String`, `JSON` (when the encoder succeeds) and `HTML` (when the
engine is set and the template renders without error) set the context's status code
to `code` and make, in this order, the calls: `Content-Type` header (`text/plain`,
`application/json`, `text/html`), status `code`, body.  `Data` sets the status
code to `code` and sends status and bytes, with no `Content-Type` header. -/
theorem writers_order (lib : Lib) (c : Context) (code : Int) :
    (∀ text : Bytes, (c.StringBody code text).StatusCode = code ∧
      (c.StringBody code text).trace =
        c.trace ++ [Event.setHeader "Content-Type" "text/plain", Event.writeHeader code,
          Event.write text]) ∧
    (∀ (obj : Obj) (body : Bytes), lib.jsonEncode obj = Except.ok body →
      (Context.JSON lib c code obj).StatusCode = code ∧
      (Context.JSON lib c code obj).trace =
        c.trace ++ [Event.setHeader "Content-Type" "application/json", Event.writeHeader code,
          Event.write body]) ∧
    (∀ (e : Engine) (name : String) (obj : Obj), c.engine = some e →
      (e.htmlTemplates name obj).2 = none →
      ∃ c', Context.HTML lib c code name obj = Outcome.done c' ∧ c'.StatusCode = code ∧
        c'.trace =
          c.trace ++ [Event.setHeader "Content-Type" "text/html", Event.writeHeader code] ++
            (e.htmlTemplates name obj).1.map Event.write) ∧
    (∀ data : Bytes, (c.Data code data).StatusCode = code ∧
      (c.Data code data).trace = c.trace ++ [Event.writeHeader code, Event.write data]) := by
  refine ⟨?_, ?_, ?_, ?_⟩
  · intro text
    simp [Context.StringBody, Context.Status, Context.SetHeader, Context.emit]
  · intro obj body henc
    simp [Context.JSON, henc, Context.Status, Context.SetHeader, Context.emit]
  · intro e name obj he hr
    simp only [Context.HTML]
    rw [show ((c.SetHeader "Content-Type" "text/html").Status code).engine = some e from he]
    dsimp only
    rw [hr]
    exact ⟨_, rfl, rfl, by simp [Context.Status, Context.SetHeader, Context.emit]⟩
  · intro data
    simp [Context.Data, Context.Status, Context.emit]

/-- C13 amended, at concrete calls: `JSON(404, {"message": "nope"})` and
`HTML(200, "index", nil)` on a fresh context. -/
theorem writers_order_witness :
    ((Context.JSON exampleLib (attach plainRequest [] none) 404
        (Obj.h [("message", GoVal.string "nope")])).StatusCode = 404 ∧
      (Context.JSON exampleLib (attach plainRequest [] none) 404
        (Obj.h [("message", GoVal.string "nope")])).trace =
        [Event.setHeader "Content-Type" "application/json", Event.writeHeader 404,
          Event.write (utf8 "\x7b\"message\":\"nope\"\x7d\n")]) ∧
    ∃ c', Context.HTML exampleLib (attach plainRequest [] (some exampleEngine)) 200 "index"
        (Obj.val GoVal.nil) = Outcome.done c' ∧ c'.StatusCode = 200 ∧
      c'.trace =
        [Event.setHeader "Content-Type" "text/html", Event.writeHeader 200,
          Event.write (utf8 "<h1>hi</h1>")] :=
  ⟨(writers_order exampleLib (attach plainRequest [] none) 404).2.1 _ _ rfl,
    (writers_order exampleLib (attach plainRequest [] (some exampleEngine)) 200).2.2.1
      exampleEngine "index" (Obj.val GoVal.nil) rfl rfl⟩

/-- What `JSON` does when the encoder fails: the status code stays `code`, and the
status 500 of `http.Error` is sent after the status `code`. -/
theorem JSON_encode_error (lib : Lib) (c : Context) (code : Int) (obj : Obj) (err : String)
    (henc : lib.jsonEncode obj = Except.error err) :
    (Context.JSON lib c code obj).StatusCode = code ∧
    (Context.JSON lib c code obj).trace =
      c.trace ++ [Event.setHeader "Content-Type" "application/json", Event.writeHeader code,
        Event.setHeader "Content-Type" "text/plain; charset=utf-8",
        Event.setHeader "X-Content-Type-Options" "nosniff", Event.writeHeader 500,
        Event.write (utf8 (err ++ "\n"))] := by
  simp [Context.JSON, henc, httpError, Context.Status, Context.SetHeader, Context.emit]

/-- C14, at the failing input: `JSON(200, obj)` on a fresh context with an object
the encoder rejects leaves the context's status code at 200 and sends status 200
before the 500 of `http.Error`, so the status on the wire is 200; the claim has the
response status be 500.  The same holds for every context and code. -/
theorem JSON_encode_error_keeps_status :
    (Context.JSON exampleLib (attach plainRequest [] none) 200
      (Obj.val (GoVal.other "chan int"))).StatusCode = 200 ∧
    responseStatus (Context.JSON exampleLib (attach plainRequest [] none) 200
      (Obj.val (GoVal.other "chan int"))).trace = some 200 ∧
    ∀ (c : Context) (code : Int),
      (Context.JSON exampleLib c code (Obj.val (GoVal.other "chan int"))).StatusCode = code ∧
      (Context.JSON exampleLib c code (Obj.val (GoVal.other "chan int"))).trace =
        c.trace ++ [Event.setHeader "Content-Type" "application/json", Event.writeHeader code,
          Event.setHeader "Content-Type" "text/plain; charset=utf-8",
          Event.setHeader "X-Content-Type-Options" "nosniff", Event.writeHeader 500,
          Event.write (utf8 "json: unsupported type\n")] :=
  ⟨rfl, by decide, fun c code =>
    JSON_encode_error exampleLib c code (Obj.val (GoVal.other "chan int"))
      "json: unsupported type" rfl⟩

/-! ## The standard middlewares (C15 to C17) -/

theorem responseStatus_append_of_none : ∀ (es es' : List Event), responseStatus es = none →
    responseStatus (es ++ es') = responseStatus es'
  | [], _, _ => rfl
  | x :: xs, es', h => by
    cases x with
    | writeHeader code => simp [responseStatus] at h
    | write data => simp [responseStatus] at h
    | enter i =>
      simp only [responseStatus] at h
      simpa [responseStatus] using responseStatus_append_of_none xs es' h
    | failCall code err =>
      simp only [responseStatus] at h
      simpa [responseStatus] using responseStatus_append_of_none xs es' h
    | note tag status =>
      simp only [responseStatus] at h
      simpa [responseStatus] using responseStatus_append_of_none xs es' h
    | setHeader key value =>
      simp only [responseStatus] at h
      simpa [responseStatus] using responseStatus_append_of_none xs es' h

/-- The record `Fail` leaves: its marker, the `Content-Type` header, the status, and
then what the encoder's outcome adds, none of it a handler invocation. -/
theorem Fail_trace (lib : Lib) (c : Context) (code : Int) (err : String) :
    ∃ tail, (Context.Fail lib c code err).trace =
      c.trace ++ (Event.failCall code err ::
        Event.setHeader "Content-Type" "application/json" :: Event.writeHeader code :: tail) ∧
      ∀ i, Event.enter i ∉ tail := by
  unfold Context.Fail Context.JSON
  cases lib.jsonEncode (Obj.h [("message", GoVal.string err)]) with
  | ok bytes =>
    exact ⟨[Event.write bytes],
      by simp [Context.emit, Context.Status, Context.SetHeader], by simp⟩
  | error e =>
    exact ⟨[Event.setHeader "Content-Type" "text/plain; charset=utf-8",
        Event.setHeader "X-Content-Type-Options" "nosniff", Event.writeHeader 500,
        Event.write (utf8 (e ++ "\n"))],
      by simp [httpError, Context.emit, Context.Status, Context.SetHeader], by simp⟩

theorem runActs_corsCalls (lib : Lib) (next : Context → Option Outcome) (rest : List Act)
    (c : Context) :
    runActs lib next (corsCalls ++ rest) c = runActs lib next rest (afterCorsCalls c) := by
  simp only [corsCalls, List.cons_append, List.nil_append, runActs, Call.run, afterCorsCalls]
  rfl

theorem afterCorsCalls_spec (c : Context) :
    (afterCorsCalls c).handlers = c.handlers ∧ (afterCorsCalls c).index = c.index ∧
    (afterCorsCalls c).StatusCode = c.StatusCode ∧
    (afterCorsCalls c).trace = c.trace ++
      [Event.setHeader "Access-Control-Allow-Origin" "*",
        Event.setHeader "Access-Control-Allow-Origin" "*",
        Event.setHeader "Access-Control-Allow-Methods" "POST, GET, OPTIONS, PUT, DELETE,UPDATE",
        Event.setHeader "Access-Control-Allow-Headers"
          "Authorization, Content-Length, X-CSRF-Token, Token,session,X_Requested_With,Accept, Origin, Host, Connection, Accept-Encoding, Accept-Language,DNT, X-CustomHeader, Keep-Alive, User-Agent, X-Requested-With, If-Modified-Since, Cache-Control, Content-Type, Pragma",
        Event.setHeader "Access-Control-Expose-Headers"
          "Content-Length, Access-Control-Allow-Origin, Access-Control-Allow-Headers,Cache-Control,Content-Language,Content-Type,Expires,Last-Modified,Pragma,FooBar",
        Event.setHeader "Access-Control-Max-Age" "172800",
        Event.setHeader "Access-Control-Allow-Credentials" "false"] := by
  refine ⟨rfl, rfl, rfl, ?_⟩
  simp [afterCorsCalls, Context.Set, Context.SetHeader, Context.emit]


/-- The outside call of `Next` on a fresh context when the first handler returns
with the cursor at or beyond the number of handlers: the loop ends there. -/
theorem Next_first_handler (lib : Lib) (req : Request) (h : HandlerFunc)
    (hs : List HandlerFunc) (engine : Option Engine) (fuel : Nat) (c1 : Context)
    (hinv : h.invoke lib (Next lib (fuel + 1))
      (({ attach req (h :: hs) engine with index := 0 } : Context).emit (Event.enter 0)) =
        some (Outcome.done c1))
    (hh : c1.handlers = h :: hs) (hidx : ((h :: hs).length : Int) ≤ c1.index) :
    Next lib (fuel + 2) (attach req (h :: hs) engine) =
      some (Outcome.done { c1 with index := c1.index + 1 }) := by
  have hinv' : h.invoke lib (fun c1 => loop lib (fuel + 1) { c1 with index := c1.index + 1 })
      (({ attach req (h :: hs) engine with index := 0 } : Context).emit (Event.enter 0)) =
        some (Outcome.done c1) := hinv
  have hlt : (0 : Int) < ((h :: hs).length : Int) := by
    simp only [List.length_cons, Nat.cast_add, Nat.cast_one]; omega
  have hexit : ¬ c1.index + 1 < ((h :: hs).length : Int) := by omega
  have hstart : ({ attach req (h :: hs) engine with
      index := (attach req (h :: hs) engine).index + 1 } : Context) =
      { attach req (h :: hs) engine with index := 0 } := rfl
  unfold Next
  rw [hstart]
  unfold loop
  simp only [attach, newContext] at hlt hinv' ⊢
  simp only [if_pos hlt, le_refl, if_true, Int.toNat_zero, List.get?_cons_zero, hinv']
  unfold loop
  simp only [hh, if_neg hexit]

/-- What `Cors` does on an OPTIONS request, from a context `c2` reached from `c`
by calls that invoke no handler and send no status. -/
theorem Cors_preflight_from (lib : Lib) (next : Context → Option Outcome) (c : Context) :
    ∃ c', runActs lib next [Act.api (Call.fail 204 "No Content")] c = some (Outcome.done c') ∧
      enters c'.trace = enters c.trace ∧ c'.index = (c.handlers.length : Int) ∧
      c'.StatusCode = 204 ∧ Event.failCall 204 "No Content" ∈ c'.trace ∧
      Event.writeHeader 204 ∈ c'.trace ∧
      (responseStatus c.trace = none → responseStatus c'.trace = some 204) := by
  obtain ⟨_, _, h3, h4, _⟩ := Fail_spec lib c 204 "No Content"
  obtain ⟨tail, ht, hno⟩ := Fail_trace lib c 204 "No Content"
  refine ⟨Context.Fail lib c 204 "No Content", rfl, ?_, h3, h4, ?_, ?_, ?_⟩
  · rw [ht, enters_append]
    simp [enters, enters_eq_self_of_no_enter tail hno]
  · rw [ht]; simp
  · rw [ht]; simp
  · intro hnone
    rw [ht, responseStatus_append_of_none _ _ hnone]
    rfl

/-- C16: on a request with method OPTIONS, `Cors` returns having invoked no
handler, with the cursor at the number of handlers (the chain is Completed), the
status code 204 and status 204 sent (the first status, if none was sent before);
so with `Cors` first in the chain of a fresh context, the outside `Next` returns
with handler 0 the only one invoked and 204 the status on the wire.  On a request
with another method and a non-empty `Origin` header, `Cors` first sets the response
headers, `Access-Control-Allow-Origin: *` at their head, and then is exactly a call
of `Next` on the context so prepared. -/
theorem Cors_behaviour (lib : Lib) (fuel : Nat) (c : Context) :
    (c.Req.Method = "OPTIONS" →
      ∃ c', (Cors c.Req).invoke lib (Next lib fuel) c = some (Outcome.done c') ∧
        enters c'.trace = enters c.trace ∧ c'.index = (c.handlers.length : Int) ∧
        c'.StatusCode = 204 ∧ Event.failCall 204 "No Content" ∈ c'.trace ∧
        Event.writeHeader 204 ∈ c'.trace ∧
        (responseStatus c.trace = none → responseStatus c'.trace = some 204)) ∧
    (∀ (req : Request) (hs : List HandlerFunc) (engine : Option Engine),
      req.Method = "OPTIONS" →
      ∃ c', Next lib (fuel + 2) (attach req (Cors req :: hs) engine) = some (Outcome.done c') ∧
        enters c'.trace = [0] ∧ c'.StatusCode = 204 ∧ responseStatus c'.trace = some 204 ∧
        ((Cors req :: hs).length : Int) ≤ c'.index) ∧
    (c.Req.Method ≠ "OPTIONS" → c.Req.Header "Origin" ≠ "" →
      (Cors c.Req).invoke lib (Next lib fuel) c = Next lib fuel (afterCorsCalls c) ∧
      (afterCorsCalls c).index = c.index ∧ (afterCorsCalls c).handlers = c.handlers ∧
      ∃ more, (afterCorsCalls c).trace =
        c.trace ++ Event.setHeader "Access-Control-Allow-Origin" "*" :: more) := by
  have hpre : ∀ (fuel : Nat) (c : Context), c.Req.Method = "OPTIONS" →
      ∃ c', (Cors c.Req).invoke lib (Next lib fuel) c = some (Outcome.done c') ∧
        c'.handlers = c.handlers ∧
        enters c'.trace = enters c.trace ∧ c'.index = (c.handlers.length : Int) ∧
        c'.StatusCode = 204 ∧ Event.failCall 204 "No Content" ∈ c'.trace ∧
        Event.writeHeader 204 ∈ c'.trace ∧
        (responseStatus c.trace = none → responseStatus c'.trace = some 204) := by
    intro fuel c hm
    by_cases ho : c.Req.Header "Origin" ≠ ""
    · obtain ⟨c', h1, h2, h3, h4, h5, h6, h7⟩ :=
        Cors_preflight_from lib (Next lib fuel) (afterCorsCalls c)
      obtain ⟨g1, _, _, g4⟩ := afterCorsCalls_spec c
      have h1' := h1
      simp only [runActs, Call.run, Option.some.injEq, Outcome.done.injEq] at h1'
      refine ⟨c', ?_, ?_, ?_, ?_, h4, h5, h6, ?_⟩
      · simp only [HandlerFunc.invoke, Cors, if_pos ho, if_pos hm, runActs_corsCalls, h1]
      · rw [← h1', (Fail_spec lib _ 204 "No Content").1, g1]
      · rw [h2, g4, enters_append]; simp [enters]
      · rw [h3, g1]
      · intro hnone
        apply h7
        rw [g4, responseStatus_append_of_none _ _ hnone]
        rfl
    · obtain ⟨c', h1, h2, h3, h4, h5, h6, h7⟩ := Cors_preflight_from lib (Next lib fuel) c
      have h1' := h1
      simp only [runActs, Call.run, Option.some.injEq, Outcome.done.injEq] at h1'
      refine ⟨c', ?_, ?_, h2, h3, h4, h5, h6, h7⟩
      · simp only [HandlerFunc.invoke, Cors, if_neg ho, if_pos hm, List.nil_append, h1]
      · rw [← h1', (Fail_spec lib _ 204 "No Content").1]
  refine ⟨?_, ?_, ?_⟩
  · intro hm
    obtain ⟨c', h1, _, h3, h4, h5, h6, h7, h8⟩ := hpre fuel c hm
    exact ⟨c', h1, h3, h4, h5, h6, h7, h8⟩
  · intro req hs engine hm
    obtain ⟨c1, h1, h2, h3, h4, h5, _, _, h8⟩ := hpre (fuel + 1)
      (({ attach req (Cors req :: hs) engine with index := 0 } : Context).emit (Event.enter 0)) hm
    have hh : c1.handlers = Cors req :: hs := h2
    have hidx : ((Cors req :: hs).length : Int) ≤ c1.index := by rw [h4]; exact le_refl _
    refine ⟨_, Next_first_handler lib req (Cors req) hs engine fuel c1 h1 hh hidx, h3, h5,
      h8 rfl, ?_⟩
    show ((Cors req :: hs).length : Int) ≤ c1.index + 1
    omega
  · intro hm ho
    obtain ⟨g1, g2, _, g4⟩ := afterCorsCalls_spec c
    refine ⟨?_, g2, g1, _, g4⟩
    simp only [HandlerFunc.invoke, Cors, if_pos ho, if_neg hm, runActs_corsCalls, runActs]
    rcases Next lib fuel (afterCorsCalls c) with _ | r
    · rfl
    · cases r <;> rfl

/-- C16, at a preflight request (`Cors` before the demo handler: only handler 0 is
invoked, status 204) and at a GET request with an `Origin` header. -/
theorem Cors_behaviour_witness :
    (∃ c', (Cors preflightRequest).invoke exampleLib (Next exampleLib 2)
        (({ attach preflightRequest [Cors preflightRequest, demoHandler] none with
            index := 0 } : Context).emit (Event.enter 0)) = some (Outcome.done c') ∧
      enters c'.trace = [0] ∧ c'.index = 2 ∧ c'.StatusCode = 204) ∧
    (Cors crossOriginRequest).invoke exampleLib (Next exampleLib 2)
        (({ attach crossOriginRequest [Cors crossOriginRequest, demoHandler] none with
            index := 0 } : Context).emit (Event.enter 0)) =
      Next exampleLib 2 (afterCorsCalls
        (({ attach crossOriginRequest [Cors crossOriginRequest, demoHandler] none with
            index := 0 } : Context).emit (Event.enter 0))) :=
  ⟨by
    obtain ⟨c', h1, h2, h3, h4, _⟩ := (Cors_behaviour exampleLib 2
      (({ attach preflightRequest [Cors preflightRequest, demoHandler] none with
          index := 0 } : Context).emit (Event.enter 0))).1 rfl
    exact ⟨c', h1, h2, h3, h4⟩,
   ((Cors_behaviour exampleLib 2
      (({ attach crossOriginRequest [Cors crossOriginRequest, demoHandler] none with
          index := 0 } : Context).emit (Event.enter 0))).2.2 (by decide) (by decide)).1⟩


/-- A handler body that is one call of `Fail`. -/
theorem runActs_fail (lib : Lib) (next : Context → Option Outcome) (c : Context) (code : Int)
    (err : String) :
    ∃ c', runActs lib next [Act.api (Call.fail code err)] c = some (Outcome.done c') ∧
      c'.handlers = c.handlers ∧
      enters c'.trace = enters c.trace ∧ c'.index = (c.handlers.length : Int) ∧
      c'.StatusCode = code ∧ Event.failCall code err ∈ c'.trace ∧
      (responseStatus c.trace = none → responseStatus c'.trace = some code) := by
  obtain ⟨h1, _, h3, h4, _⟩ := Fail_spec lib c code err
  obtain ⟨tail, ht, hno⟩ := Fail_trace lib c code err
  refine ⟨Context.Fail lib c code err, rfl, h1, ?_, h3, h4, ?_, ?_⟩
  · rw [ht, enters_append]
    simp [enters, enters_eq_self_of_no_enter tail hno]
  · rw [ht]; simp
  · intro hnone
    rw [ht, responseStatus_append_of_none _ _ hnone]
    rfl

theorem bucketAfter_tokens : ∀ (n : Nat) (b : Bucket), 0 ≤ b.availableTokens →
    (bucketAfter b n).availableTokens = ((b.availableTokens - n).toNat : Int) := by
  intro n
  induction n with
  | zero => intro b hb; simp only [bucketAfter]; omega
  | succ n ih =>
    intro b hb
    have hstep : 0 ≤ (RateLimitMiddleware b).2.availableTokens ∧
        (RateLimitMiddleware b).2.availableTokens = ((b.availableTokens - 1).toNat : Int) := by
      simp only [RateLimitMiddleware, Bucket.TakeAvailable]
      split_ifs <;> constructor <;> simp <;> omega
    simp only [bucketAfter]
    rw [ih _ hstep.1, hstep.2]
    push_cast
    omega

/-- C17: let one handler of `RateLimitMiddleware`, built with capacity `cap >= 1`,
serve requests with no refill in between.  On each of the first `cap` requests it
takes a token and is exactly a call of `Next`; on request number `cap + 1` it calls
`Fail(200, "rate limit...")` instead, so that with the handler first in the chain of
a fresh context the outside `Next` returns with handler 0 the only one invoked,
status 200, and the message `rate limit...` in the `Fail` call; and the token count
is never negative.  (`NewBucket` requires a positive capacity.) -/
theorem RateLimit_first_cap_pass (lib : Lib) (cap : Nat) (_hcap : 1 ≤ cap) :
    (∀ i, i < cap →
      (RateLimitMiddleware (bucketAfter (NewBucket cap) i)).1.body = [Act.next] ∧
      ∀ (next : Context → Option Outcome) (c : Context),
        (RateLimitMiddleware (bucketAfter (NewBucket cap) i)).1.invoke lib next c = next c) ∧
    (RateLimitMiddleware (bucketAfter (NewBucket cap) cap)).1.body =
      [Act.api (Call.fail 200 "rate limit...")] ∧
    (∀ (req : Request) (hs : List HandlerFunc) (engine : Option Engine) (fuel : Nat),
      ∃ c', Next lib (fuel + 2)
          (attach req ((RateLimitMiddleware (bucketAfter (NewBucket cap) cap)).1 :: hs) engine) =
          some (Outcome.done c') ∧
        enters c'.trace = [0] ∧ c'.StatusCode = 200 ∧ responseStatus c'.trace = some 200 ∧
        Event.failCall 200 "rate limit..." ∈ c'.trace) ∧
    (∀ n, 0 ≤ (bucketAfter (NewBucket cap) n).availableTokens) := by
  have htok : ∀ n, (bucketAfter (NewBucket cap) n).availableTokens =
      ((((cap : Int) - n).toNat : Nat) : Int) := fun n =>
    bucketAfter_tokens n (NewBucket cap) (by simp [NewBucket])
  have hpass : ∀ i, i < cap → (RateLimitMiddleware (bucketAfter (NewBucket cap) i)).1 =
      { body := [Act.next] } := by
    intro i hi
    have h := htok i
    simp only [RateLimitMiddleware, Bucket.TakeAvailable]
    split_ifs <;> first | rfl | (exfalso; omega)
  have hreject : (RateLimitMiddleware (bucketAfter (NewBucket cap) cap)).1 =
      { body := [Act.api (Call.fail 200 "rate limit...")] } := by
    have h := htok cap
    simp only [RateLimitMiddleware, Bucket.TakeAvailable]
    split_ifs <;> first | rfl | (exfalso; omega)
  refine ⟨?_, ?_, ?_, ?_⟩
  · intro i hi
    rw [hpass i hi]
    refine ⟨rfl, fun next c => ?_⟩
    simp only [HandlerFunc.invoke, runActs]
    rcases next c with _ | r
    · rfl
    · cases r <;> rfl
  · rw [hreject]
  · intro req hs engine fuel
    rw [hreject]
    obtain ⟨c1, h1, h2, h3, h4, h5, h6, h7⟩ := runActs_fail lib (Next lib (fuel + 1))
      (({ attach req (({ body := [Act.api (Call.fail 200 "rate limit...")] } : HandlerFunc) :: hs)
        engine with index := 0 } : Context).emit (Event.enter 0)) 200 "rate limit..."
    have hinv : ({ body := [Act.api (Call.fail 200 "rate limit...")] } : HandlerFunc).invoke lib
        (Next lib (fuel + 1))
        (({ attach req (({ body := [Act.api (Call.fail 200 "rate limit...")] } : HandlerFunc) ::
          hs) engine with index := 0 } : Context).emit (Event.enter 0)) =
        some (Outcome.done c1) := by
      simp only [HandlerFunc.invoke, h1]
    have hidx : (((({ body := [Act.api (Call.fail 200 "rate limit...")] } : HandlerFunc) ::
        hs).length : Nat) : Int) ≤ c1.index := by rw [h4]; exact le_refl _
    exact ⟨_, Next_first_handler lib req _ hs engine fuel c1 hinv h2 hidx, h3, h5, h7 rfl, h6⟩
  · intro n
    rw [htok n]
    omega


/-- C17, with capacity 2: requests one and two pass to `Next`, request three is
rejected. -/
theorem RateLimit_first_cap_pass_witness :
    (RateLimitMiddleware (bucketAfter (NewBucket (2 : Nat)) 0)).1.body = [Act.next] ∧
    (RateLimitMiddleware (bucketAfter (NewBucket (2 : Nat)) 1)).1.body = [Act.next] ∧
    (RateLimitMiddleware (bucketAfter (NewBucket (2 : Nat)) 2)).1.body =
      [Act.api (Call.fail 200 "rate limit...")] :=
  ⟨((RateLimit_first_cap_pass exampleLib 2 (by decide)).1 0 (by decide)).1,
   ((RateLimit_first_cap_pass exampleLib 2 (by decide)).1 1 (by decide)).1,
   (RateLimit_first_cap_pass exampleLib 2 (by decide)).2.1⟩

/-- Running `Recovery` either returns what its `Next` returned, or, when a fault
arrived, the context after the log line and `Fail(500, _)`; in both cases it
returns, with the cursor at or beyond the number of handlers. -/
theorem Recovery_invoke (lib : Lib) (fuel : Nat) (c : Context) (o : Outcome)
    (hrun : Recovery.invoke lib (Next lib fuel) c = some o) :
    (∃ c', o = Outcome.done c' ∧ (c'.handlers.length : Int) ≤ c'.index) ∧
    (∀ c1 v, Next lib fuel c = some (Outcome.panicked c1 v) →
      o = Outcome.done (Context.Fail lib (c1.emit (Event.note (trace v ++ "\n\n") c1.StatusCode))
        500 "Internal Server Error")) := by
  simp only [HandlerFunc.invoke, Recovery, runActs] at hrun
  rcases hn : Next lib fuel c with _ | r
  · rw [hn] at hrun; cases hrun
  · rw [hn] at hrun
    cases r with
    | done c1 =>
      simp only [Option.some.injEq] at hrun
      subst hrun
      exact ⟨⟨c1, rfl, loop_done_completed lib fuel _ c1 hn⟩, fun c2 v h => by cases h⟩
    | panicked c1 v =>
      simp only [Call.run, Option.some.injEq] at hrun
      subst hrun
      refine ⟨⟨_, rfl, ?_⟩, fun c2 v2 h => by cases h; rfl⟩
      rw [(Fail_spec lib _ 500 "Internal Server Error").2.2.1,
        (Fail_spec lib _ 500 "Internal Server Error").1]

/-- C15 as stated fails: in the chain `[Recovery, panicAfterNext, noteHandler]` the
handler at index 1 raises a fault, yet the handler at index 2, which comes after it,
was invoked and did its work, because handler 1 had called `Next` before faulting. -/
theorem Recovery_downstream_ran_counterexample :
    ∃ c', Next exampleLib 4 (attach plainRequest [Recovery, panicAfterNext, noteHandler] none) =
        some (Outcome.done c') ∧
      enters c'.trace = [0, 1, 2] ∧
      c'.trace.take 6 =
        [Event.enter 0, Event.enter 1, Event.enter 2, Event.note "ran" 0,
          Event.note "boom\nTraceback:\n\n" 0, Event.failCall 500 "Internal Server Error"] := by
  refine ⟨_, rfl, ?_, ?_⟩ <;> decide


/-- C15, amended: running `Recovery` never hands a fault to its caller: whenever it
finishes it has returned, and with `Recovery` first in the chain of a fresh context
the outside `Next` returns (for any fuel two above the number of handlers that
follow).  When a fault raised downstream reaches `Recovery` with the context `c1`,
no handler is invoked after the fault, the status code becomes 500, the cursor goes
to the number of handlers, and the record grows by the log line, the `Fail`
marker, the `Content-Type` header, status 500 and the body that renders
`{"message": "Internal Server Error"}`. -/
theorem Recovery_contains_faults (lib : Lib) :
    (∀ (fuel : Nat) (c : Context) (o : Outcome),
      Recovery.invoke lib (Next lib fuel) c = some o → ∃ c', o = Outcome.done c') ∧
    (∀ (req : Request) (hs : List HandlerFunc) (engine : Option Engine) (fuel : Nat),
      hs.length ≤ fuel →
      ∃ c', Next lib (fuel + 2) (attach req (Recovery :: hs) engine) = some (Outcome.done c')) ∧
    (∀ (fuel : Nat) (c c1 : Context) (v : String) (body : Bytes),
      Next lib fuel c = some (Outcome.panicked c1 v) →
      lib.jsonEncode (Obj.h [("message", GoVal.string "Internal Server Error")]) =
        Except.ok body →
      ∃ c', Recovery.invoke lib (Next lib fuel) c = some (Outcome.done c') ∧
        enters c'.trace = enters c1.trace ∧ c'.StatusCode = 500 ∧
        c'.index = (c1.handlers.length : Int) ∧
        c'.trace = c1.trace ++
          [Event.note (trace v ++ "\n\n") c1.StatusCode,
            Event.failCall 500 "Internal Server Error",
            Event.setHeader "Content-Type" "application/json", Event.writeHeader 500,
            Event.write body]) := by
  refine ⟨?_, ?_, ?_⟩
  · intro fuel c o hrun
    obtain ⟨⟨c', h, _⟩, _⟩ := Recovery_invoke lib fuel c o hrun
    exact ⟨c', h⟩
  · intro req hs engine fuel hfuel
    have hnext : ∀ c : Context, c.handlers = Recovery :: hs →
        c.remaining ≤ (Recovery :: hs).length →
        ∃ o, Next lib (fuel + 1) c = some o ∧ o.ctx.handlers = Recovery :: hs ∧
          o.ctx.remaining ≤ c.remaining := by
      intro c hc hr
      have hlt : ({ c with index := c.index + 1 } : Context).remaining < fuel + 1 := by
        simp only [Context.remaining, hc, List.length_cons] at hr ⊢
        push_cast at hr ⊢
        omega
      have hle : ({ c with index := c.index + 1 } : Context).remaining ≤ c.remaining := by
        simp only [Context.remaining]; omega
      obtain ⟨o, h1, h2, h3⟩ :=
        loop_total lib (Recovery :: hs) (fuel + 1) { c with index := c.index + 1 } hc hlt
      exact ⟨o, h1, h2, le_trans h3 hle⟩
    obtain ⟨o, h1, h2, _⟩ := invoke_total lib (Recovery :: hs) (Recovery :: hs).length
      (Next lib (fuel + 1)) hnext Recovery
      (({ attach req (Recovery :: hs) engine with index := 0 } : Context).emit (Event.enter 0))
      rfl (by simp only [Context.remaining, Context.emit, attach, newContext]; omega)
    obtain ⟨⟨c1, rfl, hidx⟩, _⟩ := Recovery_invoke lib (fuel + 1) _ o h1
    have hh : c1.handlers = Recovery :: hs := h2
    rw [hh] at hidx
    exact ⟨_, Next_first_handler lib req Recovery hs engine fuel c1 h1 hh hidx⟩
  · intro fuel c c1 v body hn henc
    have hinv : Recovery.invoke lib (Next lib fuel) c =
        some (Outcome.done (Context.Fail lib
          (c1.emit (Event.note (trace v ++ "\n\n") c1.StatusCode)) 500
          "Internal Server Error")) := by
      simp only [HandlerFunc.invoke, Recovery, runActs, hn, Call.run]
    have htr : (Context.Fail lib (c1.emit (Event.note (trace v ++ "\n\n") c1.StatusCode)) 500
        "Internal Server Error").trace = c1.trace ++
          [Event.note (trace v ++ "\n\n") c1.StatusCode,
            Event.failCall 500 "Internal Server Error",
            Event.setHeader "Content-Type" "application/json", Event.writeHeader 500,
            Event.write body] := by
      simp [Context.Fail, Context.JSON, henc, Context.emit, Context.Status, Context.SetHeader]
    obtain ⟨g1, _, g3, g4, _⟩ := Fail_spec lib
      (c1.emit (Event.note (trace v ++ "\n\n") c1.StatusCode)) 500 "Internal Server Error"
    refine ⟨_, hinv, ?_, g4, g3, htr⟩
    rw [htr, enters_append]
    simp [enters]

/-- C15 amended, on the chain `[Recovery, panicHandler, noteHandler]`: the outside
`Next` returns, and the fault of handler 1 reaches `Recovery`, which answers 500. -/
theorem Recovery_contains_faults_witness :
    (∃ c', Next exampleLib 4 (attach plainRequest [Recovery, panicHandler, noteHandler] none) =
      some (Outcome.done c')) ∧
    ∃ c', Recovery.invoke exampleLib (Next exampleLib 3)
        (({ attach plainRequest [Recovery, panicHandler, noteHandler] none with
          index := 0 } : Context).emit (Event.enter 0)) = some (Outcome.done c') ∧
      enters c'.trace = [0, 1] ∧ c'.StatusCode = 500 ∧ c'.index = 3 :=
  ⟨(Recovery_contains_faults exampleLib).2.1 plainRequest [panicHandler, noteHandler] none 2
      (by decide),
    by
      obtain ⟨c', h1, h2, h3, h4, _⟩ := (Recovery_contains_faults exampleLib).2.2 3
        (({ attach plainRequest [Recovery, panicHandler, noteHandler] none with
          index := 0 } : Context).emit (Event.enter 0))
        ((({ attach plainRequest [Recovery, panicHandler, noteHandler] none with
          index := 1 } : Context).emit (Event.enter 0)).emit (Event.enter 1)) "boom"
        (utf8 "\x7b\"message\":\"Internal Server Error\"\x7d\n") rfl rfl
      exact ⟨c', h1, h2, h3, h4⟩⟩


/-! ## Termination with `Next` and `Fail` interleaved (C19) -/

theorem Call.run_faultFree (lib : Lib) (call : Call) (c : Context)
    (hfree : call.faultFree c.engine = true) :
    ∃ c1, call.run lib c = Outcome.done c1 := by
  cases call with
  | html code name obj =>
    simp only [Call.faultFree, Option.isSome_iff_exists] at hfree
    obtain ⟨e, he⟩ := hfree
    simp only [Call.run, Context.HTML]
    rw [show ((c.SetHeader "Content-Type" "text/html").Status code).engine = some e from he]
    dsimp only
    rcases (e.htmlTemplates name obj).2 with _ | msg
    · exact ⟨_, rfl⟩
    · exact ⟨_, rfl⟩
  | set key val => exact ⟨_, rfl⟩
  | status code => exact ⟨_, rfl⟩
  | setHeader key value => exact ⟨_, rfl⟩
  | string code text => exact ⟨_, rfl⟩
  | json code obj => exact ⟨_, rfl⟩
  | data code bytes => exact ⟨_, rfl⟩
  | fail code err => exact ⟨_, rfl⟩
  | note tag => exact ⟨_, rfl⟩

/-- C19: attach any finite chain to a fresh context; let the handlers call `Next`
and `Fail` any number of times in any order (and make any other call that raises no
fault).  Then one call of `Next` from outside returns, with any fuel above the
number of handlers, the context is Completed (cursor at or beyond the number of
handlers), and the handlers invoked are those at indices `0, ..., m-1` for some `m`
up to the number of handlers, in that order: none is invoked twice. -/
theorem Next_terminates_completed (lib : Lib) (req : Request) (hs : List HandlerFunc)
    (engine : Option Engine) (fuel : Nat)
    (hfree : ∀ h ∈ hs, ∀ a ∈ h.body, a.faultFree engine = true) (hfuel : hs.length < fuel) :
    ∃ c', Next lib fuel (attach req hs engine) = some (Outcome.done c') ∧
      (c'.handlers.length : Int) ≤ c'.index ∧
      (∃ m, m ≤ hs.length ∧ enters c'.trace = List.range m) ∧
      (enters c'.trace).Nodup := by
  let P : Context → Prop := fun c =>
    c.handlers = hs ∧ c.engine = engine ∧ ∃ m : Nat, m ≤ hs.length ∧
      enters c.trace = List.range m ∧ (c.index < (hs.length : Int) → (m : Int) = c.index + 1)
  let P' : Context → Prop := fun c =>
    c.handlers = hs ∧ c.engine = engine ∧ ∃ m : Nat, m ≤ hs.length ∧
      enters c.trace = List.range m ∧ (c.index < (hs.length : Int) → (m : Int) = c.index)
  have hstart : P' { attach req hs engine with index := (attach req hs engine).index + 1 } :=
    ⟨rfl, rfl, 0, Nat.zero_le _, rfl, fun _ => rfl⟩
  obtain ⟨o, hrun, _, _⟩ := loop_total lib hs fuel
    { attach req hs engine with index := (attach req hs engine).index + 1 } rfl
    (by simp only [Context.remaining, attach, newContext]; omega)
  have hsat : o.sat P (fun _ => False) := by
    refine loop_sat lib hs (fun a => a.faultFree engine = true) P P' (fun _ => False)
      (fun c h => h.1) hfree (fun _ _ _ _ _ h => h.elim) ?_ ?_ ?_ ?_ ?_ ?_ fuel _ o hstart hrun
    · rintro c ⟨h1, h2, m, hm, h3, h4⟩
      refine ⟨h1, h2, m, hm, h3, fun h => ?_⟩
      have h' : c.index + 1 < (hs.length : Int) := h
      show (m : Int) = c.index + 1
      exact h4 (by omega)
    · rintro c ⟨h1, h2, m, hm, h3, h4⟩ h0 hlt
      have hmi := h4 hlt
      have hto : c.index.toNat = m := by omega
      refine ⟨h1, h2, m + 1, by omega, ?_, fun _ => ?_⟩
      · simp only [Context.emit, enters_append, h3, hto, enters, List.range_succ]
      · show ((m + 1 : Nat) : Int) = c.index + 1
        omega
    · rintro c ⟨h1, h2, m, hm, h3, h4⟩ hge
      exact ⟨h1, h2, m, hm, h3, fun h => absurd h hge⟩
    · rintro c ⟨h1, h2, m, hm, h3, h4⟩ hneg
      have hmi := h4 (by omega)
      omega
    · intro v c hq; simp [Act.faultFree] at hq
    · rintro call c hq ⟨h1, h2, m, hm, h3, h4⟩
      obtain ⟨c1, hd⟩ := Call.run_faultFree lib call c (h2 ▸ hq)
      obtain ⟨g1, g2, g3, evs, g5, g6, _⟩ := Call.run_spec lib call c
      rw [hd] at g1 g2 g3 g5 ⊢
      simp only [Outcome.ctx] at g1 g2 g3 g5
      refine ⟨g1.trans h1, g2.trans h2, m, hm, ?_, fun hlt => ?_⟩
      · rw [g5, enters_append, enters_eq_self_of_no_enter evs g6, List.append_nil, h3]
      · rcases g3 with g | g
        · rw [g] at hlt ⊢; exact h4 hlt
        · rw [g, h1] at hlt; exact absurd hlt (lt_irrefl _)
  cases o with
  | panicked c' v => exact hsat.elim
  | done c' =>
    obtain ⟨_, _, m, hm, h3, _⟩ := hsat
    exact ⟨c', hrun, loop_done_completed lib fuel _ c' hrun, ⟨m, hm, h3⟩,
      by rw [h3]; exact List.nodup_range m⟩

/-- C19, on the chain `[nextTwiceThenFail, noteHandler]`, whose first handler calls
`Next`, `Next` again and then `Fail`. -/
theorem Next_terminates_completed_witness :
    ∃ c', Next exampleLib 3 (attach plainRequest [nextTwiceThenFail, noteHandler] none) =
        some (Outcome.done c') ∧
      (c'.handlers.length : Int) ≤ c'.index ∧
      (∃ m, m ≤ [nextTwiceThenFail, noteHandler].length ∧ enters c'.trace = List.range m) ∧
      (enters c'.trace).Nodup :=
  Next_terminates_completed exampleLib plainRequest [nextTwiceThenFail, noteHandler] none 3
    (by simp [nextTwiceThenFail, noteHandler, Act.faultFree, Call.faultFree]) (by decide)


/-! ## A store filled through `Set` (C20) -/

theorem Get_Set_other (c : Context) (k v k' : String) (hne : k' ≠ k) :
    (c.Set k v).Get k' = c.Get k' := by
  cases hk : c.Keys with
  | none => simp [Context.Set, Context.Get, hk, hne]
  | some m => simp [Context.Set, Context.Get, hk, hne]

theorem Get_setAll (k : String) : ∀ (kvs : List (String × String)) (c : Context),
    (setAll c kvs).Get k =
      match lastSet kvs k with
      | some v => (GoVal.string v, true)
      | none => c.Get k := by
  intro kvs
  induction kvs with
  | nil => intro c; rfl
  | cons kv rest ih =>
    intro c
    obtain ⟨k', v⟩ := kv
    have hstep : setAll c ((k', v) :: rest) = setAll (c.Set k' v) rest := rfl
    rw [hstep, ih (c.Set k' v)]
    simp only [lastSet]
    cases lastSet rest k with
    | some v' => rfl
    | none =>
      by_cases hk : k' = k
      · subst hk
        simp [Context.Set, Context.Get]
      · simp only [if_neg hk]
        exact Get_Set_other c k' v k (fun h => hk h.symm)

/-- C20: `Set` takes only strings, so in a context whose store was filled from
`newContext` by calls of `Set` alone, `Get(k)` yields the string last set for `k`,
or nothing when `k` was never set; hence `GetString(k)` is that last value (`""`
when there is none) and every other typed accessor returns its zero value, for
every key; and `Set(k, v)` leaves `Get(k')` as it was for every `k'` other than
`k`, on any context. -/
theorem store_filled_by_Set (req : Request) (kvs : List (String × String)) (k : String) :
    ((setAll (newContext req) kvs).Get k =
      match lastSet kvs k with
      | some v => (GoVal.string v, true)
      | none => (GoVal.nil, false)) ∧
    (setAll (newContext req) kvs).GetString k = (lastSet kvs k).getD "" ∧
    (setAll (newContext req) kvs).GetBool k = false ∧
    (setAll (newContext req) kvs).GetInt k = 0 ∧
    (setAll (newContext req) kvs).GetInt64 k = 0 ∧
    (setAll (newContext req) kvs).GetUint k = 0 ∧
    (setAll (newContext req) kvs).GetUint64 k = 0 ∧
    (setAll (newContext req) kvs).GetFloat64 k = 0 ∧
    (setAll (newContext req) kvs).GetTime k = { wall := 0, ext := 0, loc := none } ∧
    (setAll (newContext req) kvs).GetDuration k = 0 ∧
    (∀ (c : Context) (key v k' : String), k' ≠ key → (c.Set key v).Get k' = c.Get k') := by
  have hget : (setAll (newContext req) kvs).Get k =
      match lastSet kvs k with
      | some v => (GoVal.string v, true)
      | none => (GoVal.nil, false) := by
    rw [Get_setAll k kvs (newContext req)]
    cases lastSet kvs k with
    | some v => rfl
    | none => rfl
  refine ⟨hget, ?_, ?_, ?_, ?_, ?_, ?_, ?_, ?_, ?_, fun c key v k' h => Get_Set_other c key v k' h⟩
  all_goals
    simp only [Context.GetString, Context.GetBool, Context.GetInt, Context.GetInt64,
      Context.GetUint, Context.GetUint64, Context.GetFloat64, Context.GetTime,
      Context.GetDuration, hget]
    cases lastSet kvs k <;> rfl

/-- C20, after `Set("a", "1")`, `Set("b", "2")`, `Set("a", "3")`: `"a"` reads `"3"`,
and setting `"b"` on that store leaves what `"a"` reads. -/
theorem store_filled_by_Set_witness :
    (setAll (newContext plainRequest) [("a", "1"), ("b", "2"), ("a", "3")]).GetString "a" = "3" ∧
    (setAll (newContext plainRequest) [("a", "1"), ("b", "2"), ("a", "3")]).GetInt "a" = 0 ∧
    ((setAll (newContext plainRequest) [("a", "1"), ("b", "2"), ("a", "3")]).Set "b" "9").Get "a" =
      (setAll (newContext plainRequest) [("a", "1"), ("b", "2"), ("a", "3")]).Get "a" :=
  ⟨(store_filled_by_Set plainRequest [("a", "1"), ("b", "2"), ("a", "3")] "a").2.1,
   (store_filled_by_Set plainRequest [("a", "1"), ("b", "2"), ("a", "3")] "a").2.2.2.1,
   (store_filled_by_Set plainRequest [("a", "1"), ("b", "2"), ("a", "3")] "a").2.2.2.2.2.2.2.2.2.2
     _ "b" "9" "a" (by decide)⟩


/-! ## Re-entrant `Next` as nested calls (C18) -/

theorem effects_append (es es' : List Event) :
    effects (es ++ es') = effects es ++ effects es' := by
  induction es with
  | nil => rfl
  | cons x xs ih => cases x <;> simp [effects, ih]

theorem effects_eq_self_of_no_enter : ∀ (es : List Event), (∀ i, Event.enter i ∉ es) →
    effects es = es
  | [], _ => rfl
  | x :: xs, h => by
    have hxs : ∀ i, Event.enter i ∉ xs := fun i hi => h i (List.mem_cons_of_mem _ hi)
    cases x with
    | enter i => exact absurd (List.mem_cons_self _ _) (h i)
    | _ => simp [effects, effects_eq_self_of_no_enter xs hxs]

/-- A quiet call acts alike on two contexts with the same effects. -/
theorem sameEffects_call (lib : Lib) (call : Call) (c d : Context) (hsim : sameEffects c d)
    (hq : call.quiet c.engine = true) :
    sameEffects (call.run lib c).ctx (call.run lib d).ctx := by
  obtain ⟨h1, h2, h3, h4⟩ := hsim
  cases call with
  | fail code err => simp [Call.quiet] at hq
  | set key val =>
    exact ⟨h1, h2, by simp [Call.run, Outcome.ctx, Context.Set, h3], h4⟩
  | status code =>
    exact ⟨by simp [Call.run, Outcome.ctx, Context.Status, Context.emit, effects_append, h1],
      rfl, h3, h4⟩
  | setHeader key value =>
    exact ⟨by simp [Call.run, Outcome.ctx, Context.SetHeader, Context.emit, effects_append, h1],
      h2, h3, h4⟩
  | string code text =>
    exact ⟨by simp [Call.run, Outcome.ctx, Context.StringBody, Context.Status,
      Context.SetHeader, Context.emit, effects_append, h1], rfl, h3, h4⟩
  | json code obj =>
    simp only [Call.run, Outcome.ctx, Context.JSON]
    cases lib.jsonEncode obj with
    | ok bytes =>
      exact ⟨by simp [Context.Status, Context.SetHeader, Context.emit, effects_append, h1],
        rfl, h3, h4⟩
    | error err =>
      exact ⟨by simp [httpError, Context.Status, Context.SetHeader, Context.emit,
        effects_append, h1], rfl, h3, h4⟩
  | data code bytes =>
    exact ⟨by simp [Call.run, Outcome.ctx, Context.Data, Context.Status, Context.emit,
      effects_append, h1], rfl, h3, h4⟩
  | html code name obj =>
    obtain ⟨e, he, hr⟩ : ∃ e, c.engine = some e ∧ (e.htmlTemplates name obj).2 = none := by
      simp only [Call.quiet] at hq
      rcases hen : c.engine with _ | e
      · rw [hen] at hq; cases hq
      · rw [hen] at hq
        exact ⟨e, rfl, by simpa using hq⟩
    have hd : d.engine = some e := h4 ▸ he
    simp only [Call.run, Context.HTML]
    rw [show ((c.SetHeader "Content-Type" "text/html").Status code).engine = some e from he,
      show ((d.SetHeader "Content-Type" "text/html").Status code).engine = some e from hd]
    dsimp only
    rw [hr]
    exact ⟨by simp [Outcome.ctx, Context.Status, Context.SetHeader, Context.emit,
      effects_append, h1], rfl, h3, by simp [Outcome.ctx, Context.Status, Context.SetHeader,
      Context.emit, he, hd]⟩
  | note tag =>
    exact ⟨by simp [Call.run, Outcome.ctx, Context.emit, effects_append, h1, h2], h2, h3, h4⟩

/-- Quiet calls at the head of a handler body all return, and leave handlers,
engine and cursor alone. -/
theorem runActs_quiet_calls (lib : Lib) (next : Context → Option Outcome) (rest : List Act) :
    ∀ (calls : List Call) (c : Context), (∀ call ∈ calls, call.quiet c.engine = true) →
      runActs lib next (calls.map Act.api ++ rest) c =
        runActs lib next rest (applyCalls lib calls c) ∧
      (applyCalls lib calls c).handlers = c.handlers ∧
      (applyCalls lib calls c).engine = c.engine ∧
      (applyCalls lib calls c).index = c.index ∧
      enters (applyCalls lib calls c).trace = enters c.trace := by
  intro calls
  induction calls with
  | nil => intro c _; exact ⟨rfl, rfl, rfl, rfl, rfl⟩
  | cons call calls ih =>
    intro c hq
    obtain ⟨c1, hd, g1, g2, g3, g4⟩ :=
      Call.run_quiet lib call c (hq call (List.mem_cons_self _ _))
    have hq1 : ∀ x ∈ calls, x.quiet c1.engine = true := fun x hx => by
      rw [g2]; exact hq x (List.mem_cons_of_mem _ hx)
    obtain ⟨i1, i2, i3, i4, i5⟩ := ih c1 hq1
    have happ : applyCalls lib (call :: calls) c = applyCalls lib calls c1 := by
      simp only [applyCalls, List.foldl_cons, hd, Outcome.ctx]
    rw [happ]
    refine ⟨?_, i2.trans g1, i3.trans g2, i4.trans g3, i5.trans g4⟩
    simp only [List.map_cons, List.cons_append, runActs, hd]
    exact i1

theorem sameEffects_applyCalls (lib : Lib) : ∀ (calls : List Call) (c d : Context),
    sameEffects c d → (∀ call ∈ calls, call.quiet c.engine = true) →
    sameEffects (applyCalls lib calls c) (applyCalls lib calls d) := by
  intro calls
  induction calls with
  | nil => intro c d h _; exact h
  | cons call calls ih =>
    intro c d hsim hq
    have h1 := sameEffects_call lib call c d hsim (hq call (List.mem_cons_self _ _))
    obtain ⟨c1, hd, _, g2, _, _⟩ :=
      Call.run_quiet lib call c (hq call (List.mem_cons_self _ _))
    have hq1 : ∀ x ∈ calls, x.quiet (call.run lib c).ctx.engine = true := fun x hx => by
      rw [hd]; simp only [Outcome.ctx]; rw [g2]; exact hq x (List.mem_cons_of_mem _ hx)
    exact ih _ _ h1 hq1


theorem applyCalls_append (lib : Lib) (xs ys : List Call) (c : Context) :
    applyCalls lib (xs ++ ys) c = applyCalls lib ys (applyCalls lib xs c) := by
  simp only [applyCalls, List.foldl_append]

theorem nestedOrder_quiet (engine : Option Engine) (h : List Call)
    (hh : ∀ call ∈ h, call.quiet engine = true) :
    ∀ (rest : List (List Call × List Call)),
      (∀ p ∈ rest, (∀ call ∈ p.1, call.quiet engine = true) ∧
        ∀ call ∈ p.2, call.quiet engine = true) →
      ∀ call ∈ nestedOrder rest h, call.quiet engine = true := by
  intro rest
  induction rest with
  | nil => intro _; exact hh
  | cons q rest ih =>
    intro hq call hcall
    obtain ⟨pre, post⟩ := q
    simp only [nestedOrder, List.mem_append] at hcall
    have hqq := hq (pre, post) (List.mem_cons_self _ _)
    rcases hcall with (hcall | hcall) | hcall
    · exact hqq.1 call hcall
    · exact ih (fun p hp => hq p (List.mem_cons_of_mem _ hp)) call hcall
    · exact hqq.2 call hcall

/-- The loop on a chain whose handlers from the cursor on are wrapping middlewares
followed by a final handler: it returns, and its effects are those of the calls in
nested order. -/
theorem loop_nested (lib : Lib) (engine : Option Engine) (hs : List HandlerFunc)
    (h : List Call) (hh : ∀ call ∈ h, call.quiet engine = true) :
    ∀ (rest : List (List Call × List Call)),
      (∀ p ∈ rest, (∀ call ∈ p.1, call.quiet engine = true) ∧
        ∀ call ∈ p.2, call.quiet engine = true) →
      ∀ (j fuel : Nat) (c : Context), c.handlers = hs → c.engine = engine →
        c.index = (j : Int) →
        hs.drop j = rest.map (fun p => wrap p.1 p.2) ++ [leaf h] → rest.length + 1 < fuel →
        ∃ c', loop lib fuel c = some (Outcome.done c') ∧ c'.handlers = hs ∧
          c'.engine = engine ∧ (hs.length : Int) ≤ c'.index ∧
          sameEffects c' (applyCalls lib (nestedOrder rest h) c) := by
  intro rest
  induction rest with
  | nil =>
    intro _ j fuel c hc he hj hdrop hfuel
    obtain ⟨fuel, rfl⟩ : ∃ f, fuel = f + 2 := ⟨fuel - 2, by simp at hfuel; omega⟩
    have hget : hs.get? j = some (leaf h) := by
      rw [List.get?_eq_getElem?, ← List.head?_drop, hdrop]; rfl
    have hlen : hs.length = j + 1 := by
      have := congrArg List.length hdrop
      simp only [List.length_drop, List.map_nil, List.nil_append, List.length_singleton] at this
      omega
    have hlt : c.index < (hs.length : Int) := by rw [hj, hlen]; push_cast; omega
    have h0 : 0 ≤ c.index := by rw [hj]; omega
    have hto : c.index.toNat = j := by rw [hj]; simp
    obtain ⟨r1, r2, r3, r4, _⟩ := runActs_quiet_calls lib
      (fun c1 => loop lib (fuel + 1) { c1 with index := c1.index + 1 }) [] h
      (c.emit (Event.enter j)) (fun call hcall => by
        show call.quiet c.engine = true
        rw [he]; exact hh call hcall)
    have hinv : (leaf h).invoke lib
        (fun c1 => loop lib (fuel + 1) { c1 with index := c1.index + 1 })
        (c.emit (Event.enter j)) =
        some (Outcome.done (applyCalls lib h (c.emit (Event.enter j)))) := by
      simp only [HandlerFunc.invoke, leaf]
      rw [← List.append_nil (List.map Act.api h), r1]
      rfl
    have hexit : ¬ (applyCalls lib h (c.emit (Event.enter j))).index + 1 < (hs.length : Int) := by
      rw [r4]
      show ¬ c.index + 1 < (hs.length : Int)
      rw [hj, hlen]; push_cast; omega
    refine ⟨{ applyCalls lib h (c.emit (Event.enter j)) with
        index := (applyCalls lib h (c.emit (Event.enter j))).index + 1 }, ?_, ?_, ?_, ?_, ?_⟩
    · rw [loop, hc, if_pos hlt, if_pos h0, hto, hget]
      dsimp only
      rw [hinv]
      dsimp only
      rw [loop, show ({ applyCalls lib h (c.emit (Event.enter j)) with
        index := (applyCalls lib h (c.emit (Event.enter j))).index + 1 } : Context).handlers = hs
        from r2.trans hc, if_neg hexit]
    · exact r2.trans hc
    · exact r3.trans he
    · show (hs.length : Int) ≤ (applyCalls lib h (c.emit (Event.enter j))).index + 1
      omega
    · have hsim0 : sameEffects (c.emit (Event.enter j)) c :=
        ⟨by simp [Context.emit, effects_append, effects], rfl, rfl, rfl⟩
      have hsim := sameEffects_applyCalls lib h _ _ hsim0 (fun call hcall => by
        show call.quiet c.engine = true
        rw [he]; exact hh call hcall)
      exact hsim
  | cons p rest ih =>
    intro hq j fuel c hc he hj hdrop hfuel
    obtain ⟨pre, post⟩ := p
    obtain ⟨fuel, rfl⟩ : ∃ f, fuel = f + 1 := ⟨fuel - 1, by omega⟩
    have hqp := hq (pre, post) (List.mem_cons_self _ _)
    have hqrest : ∀ p ∈ rest, (∀ call ∈ p.1, call.quiet engine = true) ∧
        ∀ call ∈ p.2, call.quiet engine = true := fun p hp => hq p (List.mem_cons_of_mem _ hp)
    have hget : hs.get? j = some (wrap pre post) := by
      rw [List.get?_eq_getElem?, ← List.head?_drop, hdrop]; rfl
    have hdrop1 : hs.drop (j + 1) = rest.map (fun p => wrap p.1 p.2) ++ [leaf h] := by
      rw [← List.tail_drop, hdrop]; rfl
    have hlen : j + 1 < hs.length := by
      have := congrArg List.length hdrop1
      simp only [List.length_drop, List.length_append, List.length_map,
        List.length_singleton] at this
      omega
    have hlt : c.index < (hs.length : Int) := by rw [hj]; omega
    have h0 : 0 ≤ c.index := by rw [hj]; omega
    have hto : c.index.toNat = j := by rw [hj]; simp
    -- the calls before `Next`
    obtain ⟨r1, r2, r3, r4, _⟩ := runActs_quiet_calls lib
      (fun c1 => loop lib fuel { c1 with index := c1.index + 1 })
      (Act.next :: post.map Act.api) pre
      (c.emit (Event.enter j)) (fun call hcall => by
        show call.quiet c.engine = true
        rw [he]; exact hqp.1 call hcall)
    -- the downstream handlers
    obtain ⟨c2, s1, s2, s3, s4, s5⟩ := ih hqrest (j + 1) fuel
      { applyCalls lib pre (c.emit (Event.enter j)) with
        index := (applyCalls lib pre (c.emit (Event.enter j))).index + 1 }
      (r2.trans hc) (r3.trans he)
      (by
        show (applyCalls lib pre (c.emit (Event.enter j))).index + 1 = ((j + 1 : Nat) : Int)
        rw [r4]
        show c.index + 1 = ((j + 1 : Nat) : Int)
        rw [hj]; push_cast; rfl)
      hdrop1 (by simp only [List.length_cons] at hfuel; omega)
    -- the calls after `Next`
    obtain ⟨t1, t2, t3, t4, _⟩ := runActs_quiet_calls lib
      (fun c1 => loop lib fuel { c1 with index := c1.index + 1 }) [] post c2
      (fun call hcall => by rw [s3]; exact hqp.2 call hcall)
    have hinv : (wrap pre post).invoke lib
        (fun c1 => loop lib fuel { c1 with index := c1.index + 1 })
        (c.emit (Event.enter j)) = some (Outcome.done (applyCalls lib post c2)) := by
      simp only [HandlerFunc.invoke, wrap]
      rw [r1]
      simp only [runActs, s1]
      rw [← List.append_nil (List.map Act.api post), t1]
      rfl
    have hexit : ¬ (applyCalls lib post c2).index + 1 < (hs.length : Int) := by
      rw [t4]; omega
    have hfuel1 : ∃ f, fuel = f + 1 := ⟨fuel - 1, by
      simp only [List.length_cons] at hfuel; omega⟩
    obtain ⟨f, rfl⟩ := hfuel1
    refine ⟨{ applyCalls lib post c2 with index := (applyCalls lib post c2).index + 1 },
      ?_, ?_, ?_, ?_, ?_⟩
    · rw [loop, hc, if_pos hlt, if_pos h0, hto, hget]
      dsimp only
      rw [hinv]
      dsimp only
      rw [loop, show ({ applyCalls lib post c2 with
        index := (applyCalls lib post c2).index + 1 } : Context).handlers = hs
        from t2.trans s2, if_neg hexit]
    · exact t2.trans s2
    · exact t3.trans s3
    · show (hs.length : Int) ≤ (applyCalls lib post c2).index + 1
      rw [t4]; omega
    · -- effects: post after (downstream after pre)
      have hsim0 : sameEffects
          ({ applyCalls lib pre (c.emit (Event.enter j)) with
            index := (applyCalls lib pre (c.emit (Event.enter j))).index + 1 } : Context)
          (applyCalls lib pre c) := by
        have hsimE : sameEffects (c.emit (Event.enter j)) c :=
          ⟨by simp [Context.emit, effects_append, effects], rfl, rfl, rfl⟩
        have := sameEffects_applyCalls lib pre _ _ hsimE (fun call hcall => by
          show call.quiet c.engine = true
          rw [he]; exact hqp.1 call hcall)
        exact this
      have hqn := nestedOrder_quiet engine h hh rest hqrest
      have hsim1 := sameEffects_applyCalls lib (nestedOrder rest h) _ _ hsim0
        (fun call hcall => by
          show call.quiet (applyCalls lib pre (c.emit (Event.enter j))).engine = true
          rw [r3]
          show call.quiet c.engine = true
          rw [he]; exact hqn call hcall)
      have hsim2 : sameEffects c2
          (applyCalls lib (nestedOrder rest h) (applyCalls lib pre c)) :=
        ⟨s5.1.trans hsim1.1, s5.2.1.trans hsim1.2.1, s5.2.2.1.trans hsim1.2.2.1,
          s5.2.2.2.trans hsim1.2.2.2⟩
      have hsim3 := sameEffects_applyCalls lib post _ _ hsim2
        (fun call hcall => by rw [s3]; exact hqp.2 call hcall)
      simp only [nestedOrder, applyCalls_append]
      exact hsim3


theorem effects_eq_self_of_enters_nil : ∀ (es : List Event), enters es = [] → effects es = es
  | [], _ => rfl
  | x :: xs, h => by
    cases x with
    | enter i => simp [enters] at h
    | _ =>
      simp only [enters] at h
      simp [effects, effects_eq_self_of_enters_nil xs h]

/-- C18: take a chain `m_0, ..., m_{N-2}, h` where each `m_i` makes the calls
`pre_i`, calls `Next` once and makes the calls `post_i`, and `h` makes the calls of
the final handler, none of these calls being `Fail` or raising a fault.  One call of
`Next` from outside on the fresh context returns, and its effects (the record
without the invocation markers), its status code and its store are those of making
the calls in nested order `pre_0, ..., pre_{N-2}, h, post_{N-2}, ..., post_0`, one
after the other. -/
theorem Next_is_nested_calls (lib : Lib) (req : Request)
    (ms : List (List Call × List Call)) (h : List Call) (engine : Option Engine) (fuel : Nat)
    (hms : ∀ p ∈ ms, (∀ call ∈ p.1, call.quiet engine = true) ∧
      ∀ call ∈ p.2, call.quiet engine = true)
    (hh : ∀ call ∈ h, call.quiet engine = true) (hfuel : ms.length + 1 < fuel) :
    ∃ c', Next lib fuel (attach req (ms.map (fun p => wrap p.1 p.2) ++ [leaf h]) engine) =
        some (Outcome.done c') ∧
      effects c'.trace =
        (applyCalls lib (nestedOrder ms h)
          (attach req (ms.map (fun p => wrap p.1 p.2) ++ [leaf h]) engine)).trace ∧
      c'.StatusCode =
        (applyCalls lib (nestedOrder ms h)
          (attach req (ms.map (fun p => wrap p.1 p.2) ++ [leaf h]) engine)).StatusCode ∧
      c'.Keys =
        (applyCalls lib (nestedOrder ms h)
          (attach req (ms.map (fun p => wrap p.1 p.2) ++ [leaf h]) engine)).Keys := by
  obtain ⟨c', h1, _, _, _, h5⟩ := loop_nested lib engine
    (ms.map (fun p => wrap p.1 p.2) ++ [leaf h]) h hh ms hms 0 fuel
    { attach req (ms.map (fun p => wrap p.1 p.2) ++ [leaf h]) engine with index := 0 }
    rfl rfl rfl rfl hfuel
  have hqn := nestedOrder_quiet engine h hh ms hms
  have hsim0 : sameEffects
      ({ attach req (ms.map (fun p => wrap p.1 p.2) ++ [leaf h]) engine with index := 0 } :
        Context)
      (attach req (ms.map (fun p => wrap p.1 p.2) ++ [leaf h]) engine) := ⟨rfl, rfl, rfl, rfl⟩
  have hsim1 := sameEffects_applyCalls lib (nestedOrder ms h) _ _ hsim0 hqn
  obtain ⟨_, _, _, _, hent⟩ := runActs_quiet_calls lib (fun _ => none) [] (nestedOrder ms h)
    (attach req (ms.map (fun p => wrap p.1 p.2) ++ [leaf h]) engine) hqn
  have hself := effects_eq_self_of_enters_nil _ hent
  refine ⟨c', h1, ?_, h5.2.1.trans hsim1.2.1, h5.2.2.1.trans hsim1.2.2.1⟩
  rw [h5.1, hsim1.1, hself]

/-- C18, on the chain `Logger`, a middleware noting `pre1` and `post1`, and a final
handler noting `h`: the effects are `pre1, h, post1, log`, the log line of `Logger`,
the outermost, coming last. -/
theorem Next_is_nested_calls_witness :
    ∃ c', Next exampleLib 4
        (attach plainRequest
          ([([], [Call.note "log"]), ([Call.note "pre1"], [Call.note "post1"])].map
            (fun p => wrap p.1 p.2) ++ [leaf [Call.note "h"]]) none) =
        some (Outcome.done c') ∧
      effects c'.trace =
        [Event.note "pre1" 0, Event.note "h" 0, Event.note "post1" 0, Event.note "log" 0] := by
  obtain ⟨c', h1, h2, _⟩ := Next_is_nested_calls exampleLib plainRequest
    [([], [Call.note "log"]), ([Call.note "pre1"], [Call.note "post1"])] [Call.note "h"] none 4
    (by simp [Call.quiet]) (by simp [Call.quiet]) (by decide)
  exact ⟨c', h1, h2⟩

end MiniWeb
